import Mathlib

/-!
Verification development for the `listingbot` repository (src/bot.js).

The file shallowly embeds the listing-detection and image-resolution
pipeline of the bot.  The repository contains three concatenated
variants of `bot.js`; where they differ, definitions carry a `V1`
(first variant, lines 1-212, `ipfsToHttp` and the active epoch filter)
or `V3` (third variant, lines 452-730, `extractRawImage` and
`normalizeToCanonicalUrl`) suffix.  String manipulation is embedded on
`List Char` to mirror JavaScript's character-wise operations; the
JavaScript regexes used by the source are embedded by their exact
matching semantics on the inputs at hand (negated character classes
match line terminators, `.` does not, case-insensitive matching of
ASCII pattern letters).
-/

namespace ListingBot

/-- ASCII lower-casing, as used by case-insensitive regex matching on
ASCII pattern characters (the `/i` flag without `/u` never matches a
non-ASCII input character against an ASCII pattern character). -/
def lowerChar (c : Char) : Char :=
  if 'A' ≤ c ∧ c ≤ 'Z' then Char.ofNat (c.toNat + 32) else c

/-- `lstarts s p`: the character list `s` starts with the pattern `p`
(case-sensitive). -/
def lstarts : List Char → List Char → Bool
  | _, [] => true
  | [], _ :: _ => false
  | c :: cs, d :: ds => decide (c = d) && lstarts cs ds

/-- `cistarts s p`: the character list `s` starts with the (lower-case)
pattern `p`, ASCII-case-insensitively. -/
def cistarts : List Char → List Char → Bool
  | _, [] => true
  | [], _ :: _ => false
  | c :: cs, d :: ds => decide (lowerChar c = d) && cistarts cs ds

/-- `ciHasSub p s`: the lower-case pattern `p` occurs somewhere in `s`,
ASCII-case-insensitively (the semantics of `/pat/i.test(s)` for a
literal pattern). -/
def ciHasSub (p : List Char) : List Char → Bool
  | [] => cistarts [] p
  | c :: rest => cistarts (c :: rest) p || ciHasSub p rest

/-- JavaScript values that can appear in an on-chain metadata image
field: strings, numbers, arrays, objects (with an optional `url`
property) and `null`. -/
inductive ImgVal where
  | vstr (s : String)
  | vnum (n : Int)
  | varr (xs : List ImgVal)
  | vobj (url : Option ImgVal)
  | vnull

/-- JavaScript truthiness for an `ImgVal` (`""`, `0` and `null` are
falsy; arrays and objects are truthy). -/
def truthy : ImgVal → Bool
  | .vstr s => !s.isEmpty
  | .vnum n => decide (n ≠ 0)
  | .varr _ => true
  | .vobj _ => true
  | .vnull => false

/-- One entry of a metadata `files` list. -/
structure FileEntry where
  mediaType : Option String := none
  mimeType : Option String := none
  src : Option ImgVal := none
  url : Option ImgVal := none

/-- The on-chain metadata map, restricted to the fields the source
reads (`onchain_metadata` in bot.js).  `none` is an absent field. -/
structure Meta where
  name : Option String := none
  Asset : Option String := none
  price : Option Nat := none
  image : Option ImgVal := none
  image_url : Option ImgVal := none
  thumbnail : Option ImgVal := none
  media : Option ImgVal := none
  files : Option (List FileEntry) := none

/-- JavaScript `a || b` for an optional string `a` (`undefined` and
`""` are falsy and fall through to `b`). -/
def jsOrStr (a : Option String) (b : String) : String :=
  match a with
  | some s => if s = "" then b else s
  | none => b

/-! ### Image resolution, variant 1: `ipfsToHttp` (bot.js lines 38-48)
and the raw-image `||` chain (lines 164-169). -/

def noImg150 : String := "https://via.placeholder.com/150?text=No+Image"

def invalidImg150 : String := "https://via.placeholder.com/150?text=Invalid+Image"

def unknownFmt150 : String := "https://via.placeholder.com/150?text=Unknown+Format"

def ph600 : String := "https://via.placeholder.com/600x400?text=No+Image"

/-- The character pattern `ipfs://`. -/
def ipfsSchemeP : List Char := ['i', 'p', 'f', 's', ':', '/', '/']

/-- The character pattern `http`. -/
def httpCh : List Char := ['h', 't', 't', 'p']

/-- The gateway that replaces `ipfs://` in variant 1. -/
def gatewayP : List Char := "https://ipfs.io/ipfs/".data

/-- The string tail of `ipfsToHttp`: `ipfs.startsWith('ipfs://')`
rewrites to the ipfs.io gateway, `ipfs.startsWith('http')` passes
through, anything else is the Unknown+Format placeholder. -/
def ipfsToHttpStr (s : String) : String :=
  if lstarts s.data ipfsSchemeP then String.mk (gatewayP ++ s.data.drop 7)
  else if lstarts s.data httpCh then s
  else unknownFmt150

/-- `ipfsToHttp` (bot.js lines 38-48).  `none` models an `undefined`
argument.  Falsy input gives the No+Image placeholder; an array is
replaced by its first element; an object with a truthy `url` is
unwrapped; any remaining non-string gives the Invalid+Image
placeholder. -/
def ipfsToHttp (v : Option ImgVal) : String :=
  match v with
  | none => noImg150
  | some v0 =>
    if truthy v0 then
      match v0 with
      | .varr xs =>
        match xs.head? with
        | some (.vstr s) => ipfsToHttpStr s
        | _ => invalidImg150
      | .vobj u =>
        match u with
        | some uv =>
          if truthy uv then
            match uv with
            | .vstr s => ipfsToHttpStr s
            | _ => invalidImg150
          else invalidImg150
        | none => invalidImg150
      | .vstr s => ipfsToHttpStr s
      | _ => invalidImg150
    else noImg150

/-- First truthy value of a list of JavaScript expressions (`none`
models `undefined`); the semantics of an `a || b || ...` chain whose
overall falsy result is collapsed to `none`. -/
def firstTruthy : List (Option ImgVal) → Option ImgVal
  | [] => none
  | none :: rest => firstTruthy rest
  | some v :: rest => if truthy v then some v else firstTruthy rest

/-- `Array.isArray(meta.image) ? meta.image[0] : meta.image`. -/
def imgCandA (m : Meta) : Option ImgVal :=
  match m.image with
  | some (.varr xs) => xs.head?
  | o => o

/-- `meta.image && typeof meta.image === 'object' && meta.image.url`,
collapsed to its truthy contribution to the chain. -/
def imgCandB (m : Meta) : Option ImgVal :=
  match m.image with
  | some (.vobj (some u)) => some u
  | _ => none

/-- `/image\//i.test(f?.mediaType || f?.mimeType)`: when both fields
are absent the regex stringifies `undefined`, which contains no
`image/`. -/
def imageTypeOk (f : FileEntry) : Bool :=
  ciHasSub ['i', 'm', 'a', 'g', 'e', '/'] (jsOrStr f.mediaType (jsOrStr f.mimeType "undefined")).data

/-- `meta.files?.find?.(f => /image\//i.test(...))?.src`. -/
def filesFindSrc (m : Meta) : Option ImgVal :=
  match m.files with
  | none => none
  | some fs =>
    match fs.find? imageTypeOk with
    | none => none
    | some f => f.src

/-- `meta.files?.find?.(f => /image\//i.test(...))?.url`. -/
def filesFindUrl (m : Meta) : Option ImgVal :=
  match m.files with
  | none => none
  | some fs =>
    match fs.find? imageTypeOk with
    | none => none
    | some f => f.url

/-- The `rawImage` `||` chain of variant 1 (bot.js lines 164-169). -/
def rawImageV1 (m : Meta) : Option ImgVal :=
  firstTruthy [imgCandA m, imgCandB m, m.media, filesFindSrc m, filesFindUrl m]

/-- `const imageUrl = ipfsToHttp(rawImage) || '...600x400...'`
(bot.js line 171). -/
def imageUrlV1 (m : Meta) : String :=
  let r := ipfsToHttp (rawImageV1 m)
  if r = "" then ph600 else r

/-! ### Image resolution, variant 3: `extractRawImage` (bot.js lines
512-535), `normalizeToCanonicalUrl` (543-568) and
`buildPoolPreviewUrl` (570-580). -/

/-- One level of `Array.prototype.flat` applied to a candidate entry
(`undefined` entries disappear only later, under `filter(Boolean)`,
but contribute nothing either way). -/
def candFlat : Option ImgVal → List ImgVal
  | none => []
  | some (.varr xs) => xs
  | some v => [v]

/-- The candidate list of `extractRawImage`:
`[image, image_url, thumbnail, media, files-src, files-url]`,
flattened one level and filtered by truthiness. -/
def candidatesV3 (m : Meta) : List ImgVal :=
  (candFlat m.image ++ candFlat m.image_url ++ candFlat m.thumbnail ++ candFlat m.media
      ++ candFlat (filesFindSrc m) ++ candFlat (filesFindUrl m)).filter truthy

/-- `typeof v === 'string' || (v && typeof v === 'object' && typeof v.url === 'string')`. -/
def isSelectable : ImgVal → Bool
  | .vstr _ => true
  | .vobj (some (.vstr _)) => true
  | _ => false

/-- `extractRawImage` (bot.js lines 512-535): select the first string
or url-string-carrying object among the candidates, unwrap, and strip
any `#fragment` suffix. -/
def extractRawImage (m : Meta) : Option String :=
  match (candidatesV3 m).find? isSelectable with
  | some (.vstr s) => some (String.mk (s.data.takeWhile (fun c => c ≠ '#')))
  | some (.vobj (some (.vstr s))) => some (String.mk (s.data.takeWhile (fun c => c ≠ '#')))
  | _ => none

/-- The character pattern `ipfs/`. -/
def ipfsSlashP : List Char := ['i', 'p', 'f', 's', '/']

/-- The character pattern `/ipfs/`. -/
def slashIpfsP : List Char := ['/', 'i', 'p', 'f', 's', '/']

/-- The character pattern `http://`. -/
def httpP : List Char := ['h', 't', 't', 'p', ':', '/', '/']

/-- The character pattern `https://`. -/
def httpsP : List Char := ['h', 't', 't', 'p', 's', ':', '/', '/']

/-- The character pattern `data:image/`. -/
def dataImgP : List Char := ['d', 'a', 't', 'a', ':', 'i', 'm', 'a', 'g', 'e', '/']

/-- The character pattern `ar://`. -/
def arP : List Char := ['a', 'r', ':', '/', '/']

/-- The arweave gateway. -/
def arweaveHost : List Char := "https://arweave.net/".data

/-- A character the JavaScript `.` metacharacter refuses to match
(line terminators: LF, CR, LS, PS). -/
def notLT (c : Char) : Bool :=
  decide (c ≠ '\n') && decide (c ≠ '\r') && decide (c.toNat ≠ 0x2028) && decide (c.toNat ≠ 0x2029)

/-- Matching semantics of the tail `([^/]+)(.*)?$` of the three ipfs
regexes against the remainder `t` of the input: the greedy `[^/]+`
segment must be non-empty, and the part after it must contain no line
terminator (the negated class `[^/]` does match line terminators, `.`
does not, and shrinking the greedy segment can never remove a line
terminator from the rest). -/
def reTail (t : List Char) : Bool :=
  !(t.takeWhile (fun c => c ≠ '/')).isEmpty && (t.dropWhile (fun c => c ≠ '/')).all notLT

/-- The three ipfs regexes of `normalizeToCanonicalUrl`, tried in
source order; on a match the result is the matched remainder
`cid ++ path`, whose reconstruction `ipfs://cid/path` only depends on
the remainder, not on the capture split. -/
def ipfsMatch (s : List Char) : Option (List Char) :=
  if cistarts s (ipfsSchemeP ++ ipfsSlashP) && reTail (s.drop 12) then some (s.drop 12)
  else if cistarts s ipfsSchemeP && reTail (s.drop 7) then some (s.drop 7)
  else if cistarts s slashIpfsP && reTail (s.drop 6) then some (s.drop 6)
  else none

/-- Core of `normalizeToCanonicalUrl` (bot.js lines 543-568) on a
non-empty character list. -/
def normalizeCore (s : List Char) : List Char :=
  if cistarts s httpP || cistarts s httpsP then s
  else if cistarts s dataImgP then s
  else if cistarts s arP then arweaveHost ++ s.drop 5
  else
    match ipfsMatch s with
    | some t => ipfsSchemeP ++ t
    | none => s

/-- `normalizeToCanonicalUrl` (bot.js lines 543-568); `none` models a
`null`/`undefined` argument or result, and an empty string is falsy
(`if (!raw) return null`). -/
def normalizeToCanonicalUrl (r : Option String) : Option String :=
  match r with
  | none => none
  | some s => if s.data.isEmpty then none else some (String.mk (normalizeCore s.data))

/-- Upper-case hex digit of a nibble. -/
def hexUp (n : Nat) : Char :=
  if n < 10 then Char.ofNat (48 + n) else Char.ofNat (55 + n)

/-- UTF-8 bytes of a unicode scalar value. -/
def utf8Bytes (c : Char) : List Nat :=
  let n := c.toNat
  if n < 0x80 then [n]
  else if n < 0x800 then [0xC0 + n / 0x40, 0x80 + n % 0x40]
  else if n < 0x10000 then [0xE0 + n / 0x1000, 0x80 + (n / 0x40) % 0x40, 0x80 + n % 0x40]
  else [0xF0 + n / 0x40000, 0x80 + (n / 0x1000) % 0x40, 0x80 + (n / 0x40) % 0x40, 0x80 + n % 0x40]

/-- `application/x-www-form-urlencoded` serialization of one character
(the `URLSearchParams.toString` encoding): ASCII alphanumerics and
`*-._` stay, space becomes `+`, everything else is percent-encoded. -/
def encodeChar (c : Char) : List Char :=
  if ('0' ≤ c ∧ c ≤ '9') ∨ ('A' ≤ c ∧ c ≤ 'Z') ∨ ('a' ≤ c ∧ c ≤ 'z')
      ∨ c = '*' ∨ c = '-' ∨ c = '.' ∨ c = '_' then [c]
  else if c = ' ' then ['+']
  else (utf8Bytes c).flatMap (fun b => ['%', hexUp (b / 16), hexUp (b % 16)])

/-- Form-encode a character list. -/
def formEncode (s : List Char) : List Char := s.flatMap encodeChar

/-- The nftcdn preview token (variant 3's default `NFTCDN_TOKEN`). -/
def PREVIEW_TOKEN : String := "svLsONnd66U1588Y2h5fsIdsIVU4BStGvIGdqwGw3Jw"

/-- `buildPoolPreviewUrl` (bot.js lines 570-580): `null` in, `null`
out; otherwise the nftcdn preview URL with `size`, `tk` and `url`
parameters in insertion order. -/
def buildPoolPreviewUrl (raw : Option String) : Option String :=
  match normalizeToCanonicalUrl raw with
  | none => none
  | some canonical =>
    some (String.mk ("https://nftcdn.io/preview?size=512&tk=".data
      ++ formEncode PREVIEW_TOKEN.data ++ "&url=".data ++ formEncode canonical.data))

/-- The variant-3 image URL: `buildPoolPreviewUrl(raw) || placeholder`
(bot.js line 688). -/
def imageUrlV3 (m : Meta) : String :=
  match buildPoolPreviewUrl (extractRawImage m) with
  | some u => if u = "" then ph600 else u
  | none => ph600

/-- A metadata map lacking every recognized image field. -/
def lacksAllImageFields (m : Meta) : Prop :=
  m.image.isNone = true ∧ m.image_url.isNone = true ∧ m.thumbnail.isNone = true
    ∧ m.media.isNone = true ∧ m.files.isNone = true

/-! ### Constants (bot.js lines 14-21) -/

def TX_FETCH_LIMIT : Nat := 100

def MAX_PAGES : Nat := 5

def CARDANO_GENESIS_TIME : Int := 1506203091

def EPOCH_DURATION : Int := 432000

/-! ### Epoch computation (`getEpoch`, bot.js lines 50-53) -/

/-- `getEpoch` (bot.js lines 50-53).  `none` models both a
`null`/`undefined` argument and the `NaN` result (`0` is falsy, so
`!blockTime` also yields `NaN` for it).  Otherwise
`Math.floor((blockTime - genesis) / duration)`. -/
def getEpoch (blockTime : Option Int) : Option Int :=
  match blockTime with
  | none => none
  | some t => if t = 0 then none else some (Int.fdiv (t - CARDANO_GENESIS_TIME) EPOCH_DURATION)

/-- JavaScript `epoch < k` where `epoch` may be `NaN` (`none`): any
comparison with `NaN` is false. -/
def jsLtNaN (e : Option Int) (k : Int) : Bool :=
  match e with
  | none => false
  | some v => decide (v < k)

/-- JavaScript `a || b` on two nullable integers (`0`, `null` and
`undefined` are falsy), as in
`utxoRes.data.block_time || await getTransactionBlockTime(...)`. -/
def jsOrTime (a : Option Int) (b : Option Int) : Option Int :=
  match a with
  | some v => if v = 0 then b else some v
  | none => b

/-! ### Transaction scanner (bot.js lines 93-110): pagination with
rate-limit retry.  The environment is modelled as the list of
responses the indexer gives to the successive page requests; the
scanner consumes one response per request. -/

/-- A transaction summary record from the address-transactions
endpoint. -/
structure Tx where
  tx_hash : String
  block_time : Option Int
deriving DecidableEq

/-- One response of the transaction-list endpoint: a page of records,
an HTTP error with a status code, or a network error without a
response object. -/
inductive PageResp where
  | ok (txs : List Tx)
  | httpErr (status : Nat)
  | netErr
deriving DecidableEq

/-- Observable scanner actions: a page request (with its `count` and
descending-order parameters) and a sleep in milliseconds. -/
inductive ScanEv where
  | req (page : Nat) (count : Nat) (desc : Bool)
  | sleepMs (ms : Nat)
deriving DecidableEq

/-- The pagination loop of `monitorListings` (bot.js lines 93-110),
run from page number `page` against the remaining responses: a full
page (length ≥ 100) is accumulated and followed by a 300 ms throttle
sleep; a short page ends the loop; HTTP 429 sleeps 10 s and retries
the same page; any other error ends the loop; the loop also ends once
the page number exceeds `MAX_PAGES = 5`.  An exhausted response list
truncates the trace. -/
def scanGo : Nat → List PageResp → List Tx × List ScanEv
  | _, [] => ([], [])
  | page, r :: rest =>
    if MAX_PAGES < page then ([], [])
    else
      match r with
      | .ok txs =>
        if txs.length < TX_FETCH_LIMIT then (txs, [.req page TX_FETCH_LIMIT true])
        else
          let rec2 := scanGo (page + 1) rest
          (txs ++ rec2.1, .req page TX_FETCH_LIMIT true :: .sleepMs 300 :: rec2.2)
      | .httpErr status =>
        if status = 429 then
          let rec2 := scanGo page rest
          (rec2.1, .req page TX_FETCH_LIMIT true :: .sleepMs 10000 :: rec2.2)
        else ([], [.req page TX_FETCH_LIMIT true])
      | .netErr => ([], [.req page TX_FETCH_LIMIT true])

/-- The request/sleep trace of `n` consecutive full pages starting at
page `start`. -/
def pageEvts (start n : Nat) : List ScanEv :=
  (List.range' start n).flatMap (fun p => [ScanEv.req p TX_FETCH_LIMIT true, ScanEv.sleepMs 300])

/-! ### Listing detection and the monitoring cycle (bot.js lines
112-195 for variant 1, lines 630-713 for variant 3). -/

/-- One asset entry of a transaction output. -/
structure Amt where
  unit : String
  quantity : Nat
deriving DecidableEq

/-- A transaction output (destination address and its asset
amounts). -/
structure TxOut where
  address : String
  amount : List Amt
deriving DecidableEq

/-- The payload of the transaction-UTXOs endpoint as the code reads
it. -/
structure UtxoData where
  block_time : Option Int
  outputs : List TxOut
deriving DecidableEq

/-- The per-transaction network environment: the UTXO fetch outcome
(`none` is a failed fetch), the fallback `getTransactionBlockTime`
result, and which asset-detail fetches succeed. -/
structure TxEnv where
  utxo : Option UtxoData
  txLookup : Option Int
  assetOk : String → Bool

/-- Observable per-transaction actions of the monitoring cycle. -/
inductive Ev where
  | utxoFetch (h : String)
  | notify (h : String) (unit : String)
  | mark (h : String)
deriving DecidableEq

/-- The transaction hash an event is about. -/
def evHash : Ev → String
  | .utxoFetch h => h
  | .notify h _ => h
  | .mark h => h

/-- Whether an event is about the hash `h`. -/
def touches (h : String) (e : Ev) : Bool := decide (evHash e = h)

/-- Whether an event is `mark h`. -/
def isMarkOf (h : String) : Ev → Bool
  | .mark h2 => decide (h2 = h)
  | _ => false

/-- Number of `mark h` events in a trace. -/
def countMark (h : String) (l : List Ev) : Nat := (l.filter (isMarkOf h)).length

/-- `Set.prototype.has`-style membership on the processed list. -/
def memb (x : String) (l : List String) : Bool := l.any (fun y => decide (y = x))

/-- `Set.prototype.add`: idempotent insertion. -/
def addProcessed (h : String) (s : List String) : List String :=
  if memb h s then s else h :: s

/-- The first 56 characters of a unit identifier
(`asset.unit.slice(0, 56)`). -/
def takeChars (n : Nat) (s : String) : String := String.mk (s.data.take n)

/-- The inner detection loop (bot.js lines 132-140 / 650-658): iterate
the outputs whose address is the scanned address, skip `lovelace`,
keep units whose 56-character policy id is watched. -/
def unitsOfOutput (pids : List String) (o : TxOut) : List String :=
  o.amount.filterMap (fun a =>
    if a.unit = "lovelace" then none
    else if memb (takeChars 56 a.unit) pids then some a.unit else none)

/-- All matching asset units of a transaction's outputs. -/
def matchingUnits (pids : List String) (addr : String) (outs : List TxOut) : List String :=
  outs.flatMap (fun o => if o.address = addr then unitsOfOutput pids o else [])

/-- The tail of a per-transaction step once the UTXO data is in hand:
fetch asset details per matching unit (failed fetches are filtered
out), send one notification per surviving detail, and add the hash to
the processed set. -/
def detectAndNotify (pids : List String) (addr : String) (env : String → TxEnv)
    (s : List String) (h : String) (u : UtxoData) : List String × List Ev :=
  let notifs := ((matchingUnits pids addr u.outputs).filter
      (fun unit => (env h).assetOk unit)).map (fun unit => Ev.notify h unit)
  (addProcessed h s, Ev.utxoFetch h :: (notifs ++ [Ev.mark h]))

/-- One per-transaction step of variant 1 (bot.js lines 112-195): skip
when already processed or the summary epoch is below 573; a failed
UTXO fetch `continue`s without marking; a below-573 final epoch also
`continue`s without marking; otherwise detect, notify and mark. -/
def stepV1 (pids : List String) (addr : String) (env : String → TxEnv)
    (s : List String) (tx : Tx) : List String × List Ev :=
  if memb tx.tx_hash s || jsLtNaN (getEpoch tx.block_time) 573 then (s, [])
  else
    match (env tx.tx_hash).utxo with
    | none => (s, [Ev.utxoFetch tx.tx_hash])
    | some u =>
      if jsLtNaN (getEpoch (jsOrTime u.block_time (env tx.tx_hash).txLookup)) 573 then
        (s, [Ev.utxoFetch tx.tx_hash])
      else detectAndNotify pids addr env s tx.tx_hash u

/-- One per-transaction step of variant 3 (bot.js lines 630-713): as
variant 1 but with the epoch filter commented out. -/
def stepV3 (pids : List String) (addr : String) (env : String → TxEnv)
    (s : List String) (tx : Tx) : List String × List Ev :=
  if memb tx.tx_hash s then (s, [])
  else
    match (env tx.tx_hash).utxo with
    | none => (s, [Ev.utxoFetch tx.tx_hash])
    | some u => detectAndNotify pids addr env s tx.tx_hash u

/-- Run a per-transaction step over the transactions of one address,
threading the processed set and concatenating the traces. -/
def runTxs (step : List String → Tx → List String × List Ev) :
    List String → List Tx → List String × List Ev
  | s, [] => (s, [])
  | s, tx :: rest =>
    let r1 := step s tx
    let r2 := runTxs step r1.1 rest
    (r2.1, r1.2 ++ r2.2)

/-- Run one monitoring pass over a list of (address, transactions)
pairs. -/
def runPass (step : String → List String → Tx → List String × List Ev) :
    List String → List (String × List Tx) → List String × List Ev
  | s, [] => (s, [])
  | s, (addr, txs) :: rest =>
    let r1 := runTxs (step addr) s txs
    let r2 := runPass step r1.1 rest
    (r2.1, r1.2 ++ r2.2)

/-- One variant-1 monitoring pass. -/
def runPassV1 (pids : List String) (env : String → TxEnv)
    (s : List String) (pass : List (String × List Tx)) : List String × List Ev :=
  runPass (fun addr => stepV1 pids addr env) s pass

/-- One variant-3 monitoring pass. -/
def runPassV3 (pids : List String) (env : String → TxEnv)
    (s : List String) (pass : List (String × List Tx)) : List String × List Ev :=
  runPass (fun addr => stepV3 pids addr env) s pass

/-- The behavioural contract a per-transaction step must satisfy for
the dedup-ledger invariants; both variants satisfy it. -/
structure TxStepLaws (step : List String → Tx → List String × List Ev) : Prop where
  skip : ∀ s tx, memb tx.tx_hash s = true → step s tx = (s, [])
  mono : ∀ s tx x, memb x s = true → memb x (step s tx).1 = true
  hashed : ∀ s tx e, e ∈ (step s tx).2 → evHash e = tx.tx_hash
  markAdds : ∀ s tx, Ev.mark tx.tx_hash ∈ (step s tx).2 → memb tx.tx_hash (step s tx).1 = true
  markOnce : ∀ s tx, countMark tx.tx_hash (step s tx).2 ≤ 1
  nodup : ∀ s tx, s.Nodup → (step s tx).1.Nodup

/-! ### Display name and price (bot.js lines 161-162 for variant 1,
lines 679-684 for variant 3). -/

/-- A nibble value of a hex digit, if any. -/
def hexDigitVal (c : Char) : Option Nat :=
  if '0' ≤ c ∧ c ≤ '9' then some (c.toNat - 48)
  else if 'a' ≤ c ∧ c ≤ 'f' then some (c.toNat - 87)
  else if 'A' ≤ c ∧ c ≤ 'F' then some (c.toNat - 55)
  else none

/-- `Buffer.from(s, 'hex')`: parse hex-digit pairs, truncating at the
first invalid pair or odd trailing digit. -/
def hexPairsToBytes : List Char → List Nat
  | c1 :: c2 :: rest =>
    match hexDigitVal c1, hexDigitVal c2 with
    | some hi, some lo => (16 * hi + lo) :: hexPairsToBytes rest
    | _, _ => []
  | _ => []

/-- `Buffer.from(s, 'hex').toString()`, with bytes rendered
character-wise (this coincides with the source's UTF-8 decoding on
ASCII bytes, and is empty exactly when the source's result is). -/
def hexDecode (s : String) : String :=
  String.mk ((hexPairsToBytes s.data).map (fun b => Char.ofNat b))

/-- The displayed asset name of variant 1 (bot.js line 161):
`meta.name || meta.Asset || Buffer.from(data.asset_name || '', 'hex').toString() || 'Unknown'`. -/
def assetNameV1 (m : Meta) (assetNameHex : Option String) : String :=
  jsOrStr m.name (jsOrStr m.Asset
    (jsOrStr (some (hexDecode (jsOrStr assetNameHex ""))) "Unknown"))

/-- The displayed asset name of variants 2 and 3 (bot.js lines
397-400 / 679-682): the hex-decode branch is gated by a ternary on the
raw asset name instead of a final `|| 'Unknown'`. -/
def assetNameV3 (m : Meta) (assetNameHex : Option String) : String :=
  jsOrStr m.name (jsOrStr m.Asset
    (match assetNameHex with
     | some s => if s = "" then "Unknown" else hexDecode s
     | none => "Unknown"))

/-- The claim's reading of the fallback chain: the first DEFINED value
(present field, even if empty). -/
def claimNameFirstDefined (m : Meta) (assetNameHex : Option String) : String :=
  match m.name with
  | some s => s
  | none =>
    match m.Asset with
    | some s => s
    | none =>
      match assetNameHex with
      | some s => hexDecode s
      | none => "Unknown"

/-- The amended reading for variant 1: the first non-empty (JS-truthy)
value of the chain. -/
def amendedNameChainV1 (m : Meta) (assetNameHex : Option String) : String :=
  if m.name.getD "" ≠ "" then m.name.getD ""
  else if m.Asset.getD "" ≠ "" then m.Asset.getD ""
  else if hexDecode (jsOrStr assetNameHex "") ≠ "" then hexDecode (jsOrStr assetNameHex "")
  else "Unknown"

/-- The amended reading for variants 2/3: as variant 1, except that a
non-empty raw asset name selects the hex-decoded value even when the
decode is empty. -/
def amendedNameChainV3 (m : Meta) (assetNameHex : Option String) : String :=
  if m.name.getD "" ≠ "" then m.name.getD ""
  else if m.Asset.getD "" ≠ "" then m.Asset.getD ""
  else if jsOrStr assetNameHex "" ≠ "" then hexDecode (jsOrStr assetNameHex "")
  else "Unknown"

/-- The rounded hundredths of ADA shown for a lovelace price `n`:
`(n / 1_000_000).toFixed(2)` computes `n / 10^4` hundredths rounded
half-up (embedded exactly over the rationals). -/
def toFixed2Hundredths (n : Nat) : Nat := (n + 5000) / 10000

/-- Render `k` hundredths as a 2-decimal string `w.dd`. -/
def fmtHundredths (k : Nat) : String :=
  toString (k / 100) ++ "." ++ String.mk [Nat.digitChar (k / 10 % 10), Nat.digitChar (k % 10)]

/-- The displayed price (bot.js line 162 / 684):
`meta.price ? ... toFixed(2) ADA : 'N/A'` — note `0` is falsy. -/
def priceDisplay (p : Option Nat) : String :=
  match p with
  | some n => if n = 0 then "N/A" else fmtHundredths (toFixed2Hundredths n) ++ " ADA"
  | none => "N/A"

/-- The claim's reading: any PRESENT price (including `0`) is shown as
a 2-decimal ADA amount. -/
def claimPriceDisplay (p : Option Nat) : String :=
  match p with
  | some n => fmtHundredths (toFixed2Hundredths n) ++ " ADA"
  | none => "N/A"

/-! ### Concrete fixtures used by counterexamples and witnesses. -/

/-- A metadata map with no image fields at all. -/
def metaEmptyC3 : Meta := {}

/-- A metadata map whose `image` field holds the number `42`. -/
def metaNumImg : Meta := { image := some (.vnum 42) }

/-- A metadata map whose `name` is present but empty. -/
def metaC8 : Meta := { name := some "", Asset := some "Foo" }

/-- An environment whose every UTXO fetch fails. -/
def envUtxoFail : String → TxEnv := fun _ => ⟨none, none, fun _ => false⟩

/-- A 56-character watched policy id. -/
def policyW : String := String.mk (List.replicate 56 'a')

/-- A unit under the watched policy (policy id ++ asset-name hex). -/
def unitW : String := policyW ++ "4142"

/-- An environment with one deposit output to address `addr1` of unit
`unitW` and succeeding asset fetches. -/
def envDeposit : String → TxEnv :=
  fun _ => ⟨some ⟨none, [⟨"addr1", [⟨"lovelace", 2000000⟩, ⟨unitW, 1⟩]⟩]⟩, none, fun _ => true⟩

/-- A transaction whose block time lies in epoch 573. -/
def txW : Tx := ⟨"aa", some 1753739091⟩

/-- A full page of 100 transaction records. -/
def fullPage : List Tx := List.replicate 100 ⟨"h", none⟩

/-! ## Lemmas: processed-set primitives -/

lemma memb_iff {x : String} {l : List String} : memb x l = true ↔ x ∈ l := by
  simp [memb, List.any_eq_true]

lemma memb_addProcessed_self (h : String) (s : List String) :
    memb h (addProcessed h s) = true := by
  unfold addProcessed
  split
  · assumption
  · rw [memb_iff]
    exact List.mem_cons_self _ _

lemma memb_addProcessed_of {x h : String} {s : List String} (hx : memb x s = true) :
    memb x (addProcessed h s) = true := by
  unfold addProcessed
  split
  · exact hx
  · rw [memb_iff] at hx ⊢
    exact List.mem_cons_of_mem _ hx

lemma nodup_addProcessed {h : String} {s : List String} (hn : s.Nodup) :
    (addProcessed h s).Nodup := by
  unfold addProcessed
  split
  · exact hn
  · next hm =>
    rw [List.nodup_cons]
    exact ⟨fun hx => hm (memb_iff.mpr hx), hn⟩

lemma countMark_append (h : String) (a b : List Ev) :
    countMark h (a ++ b) = countMark h a + countMark h b := by
  simp [countMark, List.filter_append]

lemma mark_mem_of_countMark_pos {h : String} {l : List Ev} (hc : countMark h l ≠ 0) :
    Ev.mark h ∈ l := by
  unfold countMark at hc
  have hne : l.filter (isMarkOf h) ≠ [] := by
    intro h0
    rw [h0] at hc
    simp at hc
  obtain ⟨e, he⟩ := List.exists_mem_of_ne_nil _ hne
  obtain ⟨hmem, hmark⟩ := List.mem_filter.mp he
  cases e with
  | mark h2 =>
    have : h2 = h := by simpa [isMarkOf] using hmark
    subst this
    exact hmem
  | utxoFetch _ => simp [isMarkOf] at hmark
  | notify _ _ => simp [isMarkOf] at hmark

lemma countMark_eq_zero_of_noTouch {h : String} {l : List Ev}
    (hn : ∀ e ∈ l, touches h e = false) : countMark h l = 0 := by
  unfold countMark
  rw [List.length_eq_zero, List.filter_eq_nil_iff]
  intro e he hm
  have ht := hn e he
  cases e with
  | mark h2 =>
    have : h2 = h := by simpa [isMarkOf] using hm
    subst this
    simp [touches, evHash] at ht
  | utxoFetch _ => simp [isMarkOf] at hm
  | notify _ _ => simp [isMarkOf] at hm

lemma filter_mark_map_notify (h h0 : String) (units : List String) :
    (units.map (fun u => Ev.notify h0 u)).filter (isMarkOf h) = [] := by
  rw [List.filter_eq_nil_iff]
  intro e he
  simp only [List.mem_map] at he
  obtain ⟨u, _, rfl⟩ := he
  simp [isMarkOf]

/-! ## Lemmas: branch equations of the per-transaction steps -/

lemma stepV3_skip {pids addr env s tx} (hm : memb tx.tx_hash s = true) :
    stepV3 pids addr env s tx = (s, []) := by
  simp [stepV3, hm]

lemma stepV3_fail {pids addr env s tx} (hm : memb tx.tx_hash s = false)
    (hu : (env tx.tx_hash).utxo = none) :
    stepV3 pids addr env s tx = (s, [Ev.utxoFetch tx.tx_hash]) := by
  simp [stepV3, hm, hu]

lemma stepV3_go {pids addr env s tx u} (hm : memb tx.tx_hash s = false)
    (hu : (env tx.tx_hash).utxo = some u) :
    stepV3 pids addr env s tx = detectAndNotify pids addr env s tx.tx_hash u := by
  simp [stepV3, hm, hu]

lemma stepV1_skip {pids addr env s tx}
    (hm : (memb tx.tx_hash s || jsLtNaN (getEpoch tx.block_time) 573) = true) :
    stepV1 pids addr env s tx = (s, []) := by
  simp [stepV1, hm]

lemma stepV1_fail {pids addr env s tx}
    (hm : (memb tx.tx_hash s || jsLtNaN (getEpoch tx.block_time) 573) = false)
    (hu : (env tx.tx_hash).utxo = none) :
    stepV1 pids addr env s tx = (s, [Ev.utxoFetch tx.tx_hash]) := by
  simp [stepV1, hm, hu]

lemma stepV1_late {pids addr env s tx u}
    (hm : (memb tx.tx_hash s || jsLtNaN (getEpoch tx.block_time) 573) = false)
    (hu : (env tx.tx_hash).utxo = some u)
    (he : jsLtNaN (getEpoch (jsOrTime u.block_time (env tx.tx_hash).txLookup)) 573 = true) :
    stepV1 pids addr env s tx = (s, [Ev.utxoFetch tx.tx_hash]) := by
  simp [stepV1, hm, hu, he]

lemma stepV1_go {pids addr env s tx u}
    (hm : (memb tx.tx_hash s || jsLtNaN (getEpoch tx.block_time) 573) = false)
    (hu : (env tx.tx_hash).utxo = some u)
    (he : jsLtNaN (getEpoch (jsOrTime u.block_time (env tx.tx_hash).txLookup)) 573 = false) :
    stepV1 pids addr env s tx = detectAndNotify pids addr env s tx.tx_hash u := by
  simp [stepV1, hm, hu, he]

/-! ## Lemmas: properties of `detectAndNotify` -/

lemma mem_detect_events {pids addr env s h u e} :
    e ∈ (detectAndNotify pids addr env s h u).2 ↔
      e = Ev.utxoFetch h
      ∨ (∃ unit ∈ (matchingUnits pids addr u.outputs).filter (fun v => (env h).assetOk v),
          e = Ev.notify h unit)
      ∨ e = Ev.mark h := by
  simp only [detectAndNotify, List.mem_cons, List.mem_append, List.mem_map,
    List.mem_singleton, List.not_mem_nil, or_false]
  constructor
  · rintro (rfl | ⟨u0, hu0, rfl⟩ | rfl)
    · exact Or.inl rfl
    · exact Or.inr (Or.inl ⟨u0, hu0, rfl⟩)
    · exact Or.inr (Or.inr rfl)
  · rintro (rfl | ⟨u0, hu0, rfl⟩ | rfl)
    · exact Or.inl rfl
    · exact Or.inr (Or.inl ⟨u0, hu0, rfl⟩)
    · exact Or.inr (Or.inr rfl)

lemma detect_state (pids addr env s h u) :
    (detectAndNotify pids addr env s h u).1 = addProcessed h s := rfl

lemma detect_hashed {pids addr env s h u e}
    (he : e ∈ (detectAndNotify pids addr env s h u).2) : evHash e = h := by
  rcases mem_detect_events.mp he with rfl | ⟨u0, _, rfl⟩ | rfl <;> rfl

lemma detect_countMark (pids addr env s h u) :
    countMark h (detectAndNotify pids addr env s h u).2 = 1 := by
  simp only [detectAndNotify, countMark, List.filter_cons, List.filter_append,
    filter_mark_map_notify]
  simp [isMarkOf]

/-! ## Lemmas: both per-transaction steps obey the dedup contract -/

lemma txStepLawsV3 (pids : List String) (addr : String) (env : String → TxEnv) :
    TxStepLaws (stepV3 pids addr env) := by
  have hsplit : ∀ s tx, stepV3 pids addr env s tx = (s, [])
      ∨ stepV3 pids addr env s tx = (s, [Ev.utxoFetch tx.tx_hash])
      ∨ ∃ u, (env tx.tx_hash).utxo = some u
          ∧ stepV3 pids addr env s tx = detectAndNotify pids addr env s tx.tx_hash u := by
    intro s tx
    cases hm : memb tx.tx_hash s with
    | true => exact Or.inl (stepV3_skip hm)
    | false =>
      cases hu : (env tx.tx_hash).utxo with
      | none => exact Or.inr (Or.inl (stepV3_fail hm hu))
      | some u => exact Or.inr (Or.inr ⟨u, rfl, stepV3_go hm hu⟩)
  constructor
  · intro s tx hm
    exact stepV3_skip hm
  · intro s tx x hx
    rcases hsplit s tx with h | h | ⟨u, _, h⟩ <;> rw [h]
    · exact hx
    · exact hx
    · exact memb_addProcessed_of hx
  · intro s tx e he
    rcases hsplit s tx with h | h | ⟨u, _, h⟩ <;> rw [h] at he
    · simp at he
    · simp at he
      subst he
      rfl
    · exact detect_hashed he
  · intro s tx hm
    rcases hsplit s tx with h | h | ⟨u, _, h⟩ <;> rw [h] at hm ⊢
    · simp at hm
    · simp at hm
    · exact memb_addProcessed_self _ _
  · intro s tx
    rcases hsplit s tx with h | h | ⟨u, _, h⟩ <;> rw [h]
    · simp [countMark]
    · simp [countMark, isMarkOf]
    · rw [detect_countMark]
  · intro s tx hn
    rcases hsplit s tx with h | h | ⟨u, _, h⟩ <;> rw [h]
    · exact hn
    · exact hn
    · exact nodup_addProcessed hn

lemma txStepLawsV1 (pids : List String) (addr : String) (env : String → TxEnv) :
    TxStepLaws (stepV1 pids addr env) := by
  have hsplit : ∀ s tx, stepV1 pids addr env s tx = (s, [])
      ∨ stepV1 pids addr env s tx = (s, [Ev.utxoFetch tx.tx_hash])
      ∨ ∃ u, (env tx.tx_hash).utxo = some u
          ∧ stepV1 pids addr env s tx = detectAndNotify pids addr env s tx.tx_hash u := by
    intro s tx
    cases hm : (memb tx.tx_hash s || jsLtNaN (getEpoch tx.block_time) 573) with
    | true => exact Or.inl (stepV1_skip hm)
    | false =>
      cases hu : (env tx.tx_hash).utxo with
      | none => exact Or.inr (Or.inl (stepV1_fail hm hu))
      | some u =>
        cases he : jsLtNaN (getEpoch (jsOrTime u.block_time (env tx.tx_hash).txLookup)) 573 with
        | true => exact Or.inr (Or.inl (stepV1_late hm hu he))
        | false => exact Or.inr (Or.inr ⟨u, rfl, stepV1_go hm hu he⟩)
  constructor
  · intro s tx hm
    exact stepV1_skip (by simp [hm])
  · intro s tx x hx
    rcases hsplit s tx with h | h | ⟨u, _, h⟩ <;> rw [h]
    · exact hx
    · exact hx
    · exact memb_addProcessed_of hx
  · intro s tx e he
    rcases hsplit s tx with h | h | ⟨u, _, h⟩ <;> rw [h] at he
    · simp at he
    · simp at he
      subst he
      rfl
    · exact detect_hashed he
  · intro s tx hm
    rcases hsplit s tx with h | h | ⟨u, _, h⟩ <;> rw [h] at hm ⊢
    · simp at hm
    · simp at hm
    · exact memb_addProcessed_self _ _
  · intro s tx
    rcases hsplit s tx with h | h | ⟨u, _, h⟩ <;> rw [h]
    · simp [countMark]
    · simp [countMark, isMarkOf]
    · rw [detect_countMark]
  · intro s tx hn
    rcases hsplit s tx with h | h | ⟨u, _, h⟩ <;> rw [h]
    · exact hn
    · exact hn
    · exact nodup_addProcessed hn

/-! ## Lemmas: whole-run dedup invariants -/

lemma runTxs_mono {step} (L : TxStepLaws step) {x : String} :
    ∀ (s : List String) (txs : List Tx), memb x s = true → memb x (runTxs step s txs).1 = true := by
  intro s txs
  induction txs generalizing s with
  | nil => intro hx; exact hx
  | cons tx rest ih =>
    intro hx
    simp only [runTxs]
    exact ih _ (L.mono _ _ _ hx)

lemma runTxs_noTouch {step} (L : TxStepLaws step) {h : String} :
    ∀ (s : List String) (txs : List Tx), memb h s = true →
      ∀ e ∈ (runTxs step s txs).2, touches h e = false := by
  intro s txs
  induction txs generalizing s with
  | nil => intro _ e he; simp [runTxs] at he
  | cons tx rest ih =>
    intro hm e he
    simp only [runTxs, List.mem_append] at he
    rcases he with he | he
    · by_cases htx : tx.tx_hash = h
      · rw [L.skip s tx (htx ▸ hm)] at he
        simp at he
      · have := L.hashed s tx e he
        simp [touches, this, htx]
    · exact ih _ (L.mono _ _ _ hm) e he

lemma runTxs_markMem {step} (L : TxStepLaws step) {h : String} :
    ∀ (s : List String) (txs : List Tx), Ev.mark h ∈ (runTxs step s txs).2 →
      memb h (runTxs step s txs).1 = true := by
  intro s txs
  induction txs generalizing s with
  | nil => intro hm; simp [runTxs] at hm
  | cons tx rest ih =>
    intro hm
    simp only [runTxs, List.mem_append] at hm ⊢
    rcases hm with hm | hm
    · have hh : h = tx.tx_hash := L.hashed s tx _ hm
      subst hh
      exact runTxs_mono L _ _ (L.markAdds s tx hm)
    · exact ih _ hm

lemma noTouch_countMark_zero {h : String} {l : List Ev}
    (hn : ∀ e ∈ l, touches h e = false) : countMark h l = 0 :=
  countMark_eq_zero_of_noTouch hn

lemma runTxs_countLe {step} (L : TxStepLaws step) {h : String} :
    ∀ (s : List String) (txs : List Tx), countMark h (runTxs step s txs).2 ≤ 1 := by
  intro s txs
  induction txs generalizing s with
  | nil => simp [runTxs, countMark]
  | cons tx rest ih =>
    simp only [runTxs, countMark_append]
    by_cases hc : countMark h (step s tx).2 = 0
    · rw [hc]
      simpa using ih (step s tx).1
    · have hmem : Ev.mark h ∈ (step s tx).2 := mark_mem_of_countMark_pos hc
      have hh : h = tx.tx_hash := L.hashed s tx _ hmem
      have h1 : countMark h (step s tx).2 ≤ 1 := by rw [hh]; exact L.markOnce s tx
      have hadd : memb h (step s tx).1 = true := by
        rw [hh]
        exact L.markAdds s tx (hh ▸ hmem)
      have h2 : countMark h (runTxs step (step s tx).1 rest).2 = 0 :=
        countMark_eq_zero_of_noTouch (runTxs_noTouch L _ _ hadd)
      omega

lemma runTxs_nodup {step} (L : TxStepLaws step) :
    ∀ (s : List String) (txs : List Tx), s.Nodup → (runTxs step s txs).1.Nodup := by
  intro s txs
  induction txs generalizing s with
  | nil => intro hn; exact hn
  | cons tx rest ih =>
    intro hn
    simp only [runTxs]
    exact ih _ (L.nodup s tx hn)

lemma runTxs_pres {step} {P : Ev → Prop}
    (hstep : ∀ s tx e, e ∈ (step s tx).2 → P e) :
    ∀ (s : List String) (txs : List Tx), ∀ e ∈ (runTxs step s txs).2, P e := by
  intro s txs
  induction txs generalizing s with
  | nil => intro e he; simp [runTxs] at he
  | cons tx rest ih =>
    intro e he
    simp only [runTxs, List.mem_append] at he
    rcases he with he | he
    · exact hstep s tx e he
    · exact ih _ e he

lemma runPass_mono {step} (L : ∀ a, TxStepLaws (step a)) {x : String} :
    ∀ (s : List String) (pass : List (String × List Tx)),
      memb x s = true → memb x (runPass step s pass).1 = true := by
  intro s pass
  induction pass generalizing s with
  | nil => intro hx; exact hx
  | cons p rest ih =>
    intro hx
    obtain ⟨addr, txs⟩ := p
    simp only [runPass]
    exact ih _ (runTxs_mono (L addr) _ _ hx)

lemma runPass_noTouch {step} (L : ∀ a, TxStepLaws (step a)) {h : String} :
    ∀ (s : List String) (pass : List (String × List Tx)), memb h s = true →
      ∀ e ∈ (runPass step s pass).2, touches h e = false := by
  intro s pass
  induction pass generalizing s with
  | nil => intro _ e he; simp [runPass] at he
  | cons p rest ih =>
    intro hm e he
    obtain ⟨addr, txs⟩ := p
    simp only [runPass, List.mem_append] at he
    rcases he with he | he
    · exact runTxs_noTouch (L addr) _ _ hm e he
    · exact ih _ (runTxs_mono (L addr) _ _ hm) e he

lemma runPass_markMem {step} (L : ∀ a, TxStepLaws (step a)) {h : String} :
    ∀ (s : List String) (pass : List (String × List Tx)),
      Ev.mark h ∈ (runPass step s pass).2 → memb h (runPass step s pass).1 = true := by
  intro s pass
  induction pass generalizing s with
  | nil => intro hm; simp [runPass] at hm
  | cons p rest ih =>
    intro hm
    obtain ⟨addr, txs⟩ := p
    simp only [runPass, List.mem_append] at hm ⊢
    rcases hm with hm | hm
    · exact runPass_mono L _ _ (runTxs_markMem (L addr) _ _ hm)
    · exact ih _ hm

lemma runPass_countLe {step} (L : ∀ a, TxStepLaws (step a)) {h : String} :
    ∀ (s : List String) (pass : List (String × List Tx)),
      countMark h (runPass step s pass).2 ≤ 1 := by
  intro s pass
  induction pass generalizing s with
  | nil => simp [runPass, countMark]
  | cons p rest ih =>
    obtain ⟨addr, txs⟩ := p
    simp only [runPass, countMark_append]
    by_cases hc : countMark h (runTxs (step addr) s txs).2 = 0
    · rw [hc]
      simpa using ih (runTxs (step addr) s txs).1
    · have hmem : Ev.mark h ∈ (runTxs (step addr) s txs).2 := mark_mem_of_countMark_pos hc
      have hadd : memb h (runTxs (step addr) s txs).1 = true :=
        runTxs_markMem (L addr) _ _ hmem
      have h1 : countMark h (runTxs (step addr) s txs).2 ≤ 1 := runTxs_countLe (L addr) _ _
      have h2 : countMark h (runPass step (runTxs (step addr) s txs).1 rest).2 = 0 :=
        countMark_eq_zero_of_noTouch (runPass_noTouch L _ _ hadd)
      omega

lemma runPass_nodup {step} (L : ∀ a, TxStepLaws (step a)) :
    ∀ (s : List String) (pass : List (String × List Tx)),
      s.Nodup → (runPass step s pass).1.Nodup := by
  intro s pass
  induction pass generalizing s with
  | nil => intro hn; exact hn
  | cons p rest ih =>
    intro hn
    obtain ⟨addr, txs⟩ := p
    simp only [runPass]
    exact ih _ (runTxs_nodup (L addr) _ _ hn)

lemma runPass_pres {step} {P : Ev → Prop}
    (hstep : ∀ a s tx e, e ∈ (step a s tx).2 → P e) :
    ∀ (s : List String) (pass : List (String × List Tx)), ∀ e ∈ (runPass step s pass).2, P e := by
  intro s pass
  induction pass generalizing s with
  | nil => intro e he; simp [runPass] at he
  | cons p rest ih =>
    intro e he
    obtain ⟨addr, txs⟩ := p
    simp only [runPass, List.mem_append] at he
    rcases he with he | he
    · exact runTxs_pres (hstep addr) _ _ e he
    · exact ih _ e he


/-! ## Lemmas: listing detection -/

lemma unit_filter_some {pids : List String} {a : Amt} {u : String} :
    (if a.unit = "lovelace" then none
     else if memb (takeChars 56 a.unit) pids then some a.unit else none) = some u
      ↔ a.unit = u ∧ u ≠ "lovelace" ∧ memb (takeChars 56 u) pids = true := by
  constructor
  · intro h
    split_ifs at h with h1 h2
    simp only [Option.some.injEq] at h
    exact ⟨h, h ▸ h1, h ▸ h2⟩
  · rintro ⟨rfl, h1, h2⟩
    rw [if_neg h1, if_pos h2]

lemma mem_matchingUnits {pids : List String} {addr : String} {outs : List TxOut} {u : String} :
    u ∈ matchingUnits pids addr outs ↔
      ∃ o ∈ outs, o.address = addr ∧ (∃ a ∈ o.amount, a.unit = u) ∧ u ≠ "lovelace"
        ∧ memb (takeChars 56 u) pids = true := by
  simp only [matchingUnits, List.mem_flatMap]
  constructor
  · rintro ⟨o, ho, hu⟩
    by_cases ha : o.address = addr
    · rw [if_pos ha] at hu
      simp only [unitsOfOutput, List.mem_filterMap] at hu
      obtain ⟨a, hain, hf⟩ := hu
      obtain ⟨rfl, hl, hp⟩ := unit_filter_some.mp hf
      exact ⟨o, ho, ha, ⟨a, hain, rfl⟩, hl, hp⟩
    · rw [if_neg ha] at hu
      simp at hu
  · rintro ⟨o, ho, ha, ⟨a, hain, rfl⟩, hl, hp⟩
    refine ⟨o, ho, ?_⟩
    rw [if_pos ha]
    simp only [unitsOfOutput, List.mem_filterMap]
    exact ⟨a, hain, unit_filter_some.mpr ⟨rfl, hl, hp⟩⟩

lemma stepV3_cases (pids : List String) (addr : String) (env : String → TxEnv)
    (s : List String) (tx : Tx) :
    stepV3 pids addr env s tx = (s, [])
    ∨ stepV3 pids addr env s tx = (s, [Ev.utxoFetch tx.tx_hash])
    ∨ ∃ u, stepV3 pids addr env s tx = detectAndNotify pids addr env s tx.tx_hash u := by
  cases hm : memb tx.tx_hash s with
  | true => exact Or.inl (stepV3_skip hm)
  | false =>
    cases hu : (env tx.tx_hash).utxo with
    | none => exact Or.inr (Or.inl (stepV3_fail hm hu))
    | some u => exact Or.inr (Or.inr ⟨u, stepV3_go hm hu⟩)

lemma stepV1_cases (pids : List String) (addr : String) (env : String → TxEnv)
    (s : List String) (tx : Tx) :
    stepV1 pids addr env s tx = (s, [])
    ∨ stepV1 pids addr env s tx = (s, [Ev.utxoFetch tx.tx_hash])
    ∨ ∃ u, stepV1 pids addr env s tx = detectAndNotify pids addr env s tx.tx_hash u := by
  cases hm : (memb tx.tx_hash s || jsLtNaN (getEpoch tx.block_time) 573) with
  | true => exact Or.inl (stepV1_skip hm)
  | false =>
    cases hu : (env tx.tx_hash).utxo with
    | none => exact Or.inr (Or.inl (stepV1_fail hm hu))
    | some u =>
      cases he : jsLtNaN (getEpoch (jsOrTime u.block_time (env tx.tx_hash).txLookup)) 573 with
      | true => exact Or.inr (Or.inl (stepV1_late hm hu he))
      | false => exact Or.inr (Or.inr ⟨u, stepV1_go hm hu he⟩)

lemma detect_notify_watched {pids addr env s h u e}
    (he : e ∈ (detectAndNotify pids addr env s h u).2) :
    ∀ h0 unit, e = Ev.notify h0 unit → memb (takeChars 56 unit) pids = true := by
  rintro h0 unit rfl
  rcases mem_detect_events.mp he with h1 | ⟨u0, hu0, h1⟩ | h1
  · exact absurd h1 (by simp)
  · simp only [Ev.notify.injEq] at h1
    rw [← h1.2] at hu0
    have hmm : unit ∈ matchingUnits pids addr u.outputs :=
      List.mem_of_mem_filter hu0
    obtain ⟨o, _, _, _, _, hp⟩ := mem_matchingUnits.mp hmm
    exact hp
  · exact absurd h1 (by simp)

lemma stepV3_notify_watched (pids addr env) :
    ∀ s tx e, e ∈ (stepV3 pids addr env s tx).2 →
      ∀ h0 unit, e = Ev.notify h0 unit → memb (takeChars 56 unit) pids = true := by
  intro s tx e he h0 unit hform
  rcases stepV3_cases pids addr env s tx with h | h | ⟨u, h⟩ <;> rw [h] at he
  · simp at he
  · simp at he
    subst he
    exact absurd hform (by simp)
  · exact detect_notify_watched he h0 unit hform

lemma stepV1_notify_watched (pids addr env) :
    ∀ s tx e, e ∈ (stepV1 pids addr env s tx).2 →
      ∀ h0 unit, e = Ev.notify h0 unit → memb (takeChars 56 unit) pids = true := by
  intro s tx e he h0 unit hform
  rcases stepV1_cases pids addr env s tx with h | h | ⟨u, h⟩ <;> rw [h] at he
  · simp at he
  · simp at he
    subst he
    exact absurd hform (by simp)
  · exact detect_notify_watched he h0 unit hform

/-! ## Lemmas: transaction scanner -/

lemma pageEvts_zero (start : Nat) : pageEvts start 0 = [] := by
  simp [pageEvts]

lemma pageEvts_succ (start n : Nat) :
    pageEvts start (n + 1)
      = ScanEv.req start TX_FETCH_LIMIT true :: ScanEv.sleepMs 300 :: pageEvts (start + 1) n := by
  simp [pageEvts, List.range'_succ]

lemma scanGo_fulls : ∀ (fulls : List (List Tx)) (page : Nat) (rest : List PageResp),
    (∀ l ∈ fulls, l.length = 100) → 1 ≤ page → page + fulls.length ≤ 6 →
    scanGo page (fulls.map PageResp.ok ++ rest)
      = (fulls.flatten ++ (scanGo (page + fulls.length) rest).1,
         pageEvts page fulls.length ++ (scanGo (page + fulls.length) rest).2) := by
  intro fulls
  induction fulls with
  | nil =>
    intro page rest _ _ _
    simp [pageEvts_zero]
  | cons f fs ih =>
    intro page rest hall h1 h6
    have hf : f.length = 100 := hall f (List.mem_cons_self _ _)
    have hlen : (f :: fs).length = fs.length + 1 := by simp
    have hpage : ¬ MAX_PAGES < page := by
      unfold MAX_PAGES
      simp only [hlen] at h6
      omega
    have hnotshort : ¬ f.length < TX_FETCH_LIMIT := by
      unfold TX_FETCH_LIMIT
      omega
    have hih := ih (page + 1) rest (fun l hl => hall l (List.mem_cons_of_mem _ hl))
      (by omega) (by simp only [hlen] at h6; omega)
    have hidx : page + 1 + fs.length = page + (f :: fs).length := by
      simp only [hlen]
      omega
    rw [hidx] at hih
    simp only [List.map_cons, List.cons_append, List.append_eq, scanGo, if_neg hpage,
      if_neg hnotshort]
    rw [hih]
    simp only [List.flatten_cons, List.append_assoc, hlen, pageEvts_succ, List.cons_append]

lemma scanGo_bound : ∀ (rs : List PageResp) (page : Nat),
    (∀ txs, PageResp.ok txs ∈ rs → txs.length ≤ 100) →
    (scanGo page rs).1.length ≤ (6 - page) * 100 := by
  intro rs
  induction rs with
  | nil =>
    intro page _
    simp [scanGo]
  | cons r rest ih =>
    intro page hok
    cases r with
    | ok txs =>
      have htx : txs.length ≤ 100 := hok txs (List.mem_cons_self _ _)
      have hrec := ih (page + 1) (fun t ht => hok t (List.mem_cons_of_mem _ ht))
      simp only [scanGo]
      split
      · simp
      · next hpage =>
        have hp5 : page ≤ 5 := by
          unfold MAX_PAGES at hpage
          omega
        split
        · simpa using by omega
        · simp only [List.length_append]
          omega
    | httpErr status =>
      have hrec := ih page (fun t ht => hok t (List.mem_cons_of_mem _ ht))
      simp only [scanGo]
      split
      · simp
      · split
        · simpa using hrec
        · simp
    | netErr =>
      simp only [scanGo]
      split
      · simp
      · simp

lemma scanGo_req_bounds : ∀ (rs : List PageResp) (page : Nat),
    ∀ e ∈ (scanGo page rs).2, ∀ pg ct d, e = ScanEv.req pg ct d →
      ct = TX_FETCH_LIMIT ∧ d = true ∧ page ≤ pg ∧ pg ≤ MAX_PAGES := by
  intro rs
  induction rs with
  | nil =>
    intro page e he
    simp [scanGo] at he
  | cons r rest ih =>
    intro page e he pg ct d hform
    cases r with
    | ok txs =>
      simp only [scanGo] at he
      split at he
      · simp at he
      · next hpage =>
        have hp5 : page ≤ MAX_PAGES := by omega
        split at he
        · simp at he
          subst he
          simp only [ScanEv.req.injEq] at hform
          obtain ⟨rfl, rfl, rfl⟩ := hform
          exact ⟨rfl, rfl, le_refl _, hp5⟩
        · simp only [List.mem_cons] at he
          rcases he with rfl | he
          · simp only [ScanEv.req.injEq] at hform
            obtain ⟨rfl, rfl, rfl⟩ := hform
            exact ⟨rfl, rfl, le_refl _, hp5⟩
          · rcases he with rfl | he
            · exact absurd hform (by simp)
            · have := ih (page + 1) e he pg ct d hform
              exact ⟨this.1, this.2.1, by omega, this.2.2.2⟩
    | httpErr status =>
      simp only [scanGo] at he
      split at he
      · simp at he
      · next hpage =>
        have hp5 : page ≤ MAX_PAGES := by omega
        split at he
        · simp only [List.mem_cons] at he
          rcases he with rfl | he
          · simp only [ScanEv.req.injEq] at hform
            obtain ⟨rfl, rfl, rfl⟩ := hform
            exact ⟨rfl, rfl, le_refl _, hp5⟩
          · rcases he with rfl | he
            · exact absurd hform (by simp)
            · exact ih page e he pg ct d hform
        · simp at he
          subst he
          simp only [ScanEv.req.injEq] at hform
          obtain ⟨rfl, rfl, rfl⟩ := hform
          exact ⟨rfl, rfl, le_refl _, hp5⟩
    | netErr =>
      simp only [scanGo] at he
      split at he
      · simp at he
      · next hpage =>
        have hp5 : page ≤ MAX_PAGES := by omega
        simp at he
        subst he
        simp only [ScanEv.req.injEq] at hform
        obtain ⟨rfl, rfl, rfl⟩ := hform
        exact ⟨rfl, rfl, le_refl _, hp5⟩


/-! ## Lemmas: case-insensitive prefix matching and the ipfs regexes -/

lemma cistarts_nil_pattern (s : List Char) : cistarts s [] = true := by
  cases s <;> rfl

lemma cistarts_head_ne {c d : Char} (h : lowerChar c ≠ d) (cs ds : List Char) :
    cistarts (c :: cs) (d :: ds) = false := by
  simp [cistarts, h]

lemma cistarts_append_cancel : ∀ (P s q : List Char), (∀ c ∈ P, lowerChar c = c) →
    cistarts (P ++ s) (P ++ q) = cistarts s q := by
  intro P
  induction P with
  | nil => intro s q _; rfl
  | cons c cs ih =>
    intro s q hP
    simp only [List.cons_append, cistarts]
    rw [hP c (List.mem_cons_self _ _)]
    simp [ih s q (fun x hx => hP x (List.mem_cons_of_mem _ hx))]

lemma cistarts_self_append (P rest : List Char) (h : ∀ c ∈ P, lowerChar c = c) :
    cistarts (P ++ rest) P = true := by
  have h2 := cistarts_append_cancel P rest [] h
  rw [List.append_nil] at h2
  rw [h2]
  exact cistarts_nil_pattern rest

lemma takeWhile_append_all {q : Char → Bool} : ∀ (c p : List Char), (∀ x ∈ c, q x = true) →
    (c ++ p).takeWhile q = c ++ p.takeWhile q := by
  intro c
  induction c with
  | nil => intro p _; rfl
  | cons a as ih =>
    intro p h
    simp only [List.cons_append, List.takeWhile_cons]
    rw [h a (List.mem_cons_self _ _)]
    simp [ih p (fun x hx => h x (List.mem_cons_of_mem _ hx))]

lemma dropWhile_append_all {q : Char → Bool} : ∀ (c p : List Char), (∀ x ∈ c, q x = true) →
    (c ++ p).dropWhile q = p.dropWhile q := by
  intro c
  induction c with
  | nil => intro p _; rfl
  | cons a as ih =>
    intro p h
    simp only [List.cons_append, List.dropWhile_cons]
    rw [h a (List.mem_cons_self _ _)]
    simp [ih p (fun x hx => h x (List.mem_cons_of_mem _ hx))]

lemma all_dropWhile {f q : Char → Bool} : ∀ (l : List Char), l.all f = true →
    (l.dropWhile q).all f = true := by
  intro l
  induction l with
  | nil => intro h; exact h
  | cons a as ih =>
    intro h
    simp only [List.all_cons, Bool.and_eq_true] at h
    simp only [List.dropWhile_cons]
    split
    · exact ih h.2
    · simp [List.all_cons, h.1, h.2]

lemma reTail_append {c p : List Char} (hc : c ≠ []) (hslash : ∀ x ∈ c, x ≠ '/')
    (hLT : (c ++ p).all notLT = true) : reTail (c ++ p) = true := by
  have hq : ∀ x ∈ c, decide (x ≠ '/') = true := fun x hx => by simp [hslash x hx]
  have hp : p.all notLT = true := by
    rw [List.all_append, Bool.and_eq_true] at hLT
    exact hLT.2
  unfold reTail
  rw [takeWhile_append_all c p hq, dropWhile_append_all c p hq, Bool.and_eq_true]
  constructor
  · cases c with
    | nil => exact absurd rfl hc
    | cons a as => simp
  · exact all_dropWhile p hp

lemma normalizeCore_form1 {c p : List Char} (hc : c ≠ []) (hslash : ∀ x ∈ c, x ≠ '/')
    (hLT : (c ++ p).all notLT = true) :
    normalizeCore ((ipfsSchemeP ++ ipfsSlashP) ++ (c ++ p)) = ipfsSchemeP ++ (c ++ p) := by
  have hlow : ∀ x ∈ ipfsSchemeP ++ ipfsSlashP, lowerChar x = x := by decide
  have hcons : (ipfsSchemeP ++ ipfsSlashP) ++ (c ++ p)
      = 'i' :: (['p', 'f', 's', ':', '/', '/', 'i', 'p', 'f', 's', '/'] ++ (c ++ p)) := rfl
  have h12 : ((ipfsSchemeP ++ ipfsSlashP) ++ (c ++ p)).drop 12 = c ++ p := by
    have hl : (12 : Nat) = (ipfsSchemeP ++ ipfsSlashP).length := rfl
    rw [hl, List.drop_left]
  have hhttp : cistarts ((ipfsSchemeP ++ ipfsSlashP) ++ (c ++ p)) httpP = false := by
    rw [hcons, show httpP = 'h' :: ['t', 't', 'p', ':', '/', '/'] from rfl]
    exact cistarts_head_ne (by decide) _ _
  have hhttps : cistarts ((ipfsSchemeP ++ ipfsSlashP) ++ (c ++ p)) httpsP = false := by
    rw [hcons, show httpsP = 'h' :: ['t', 't', 'p', 's', ':', '/', '/'] from rfl]
    exact cistarts_head_ne (by decide) _ _
  have hdata : cistarts ((ipfsSchemeP ++ ipfsSlashP) ++ (c ++ p)) dataImgP = false := by
    rw [hcons, show dataImgP = 'd' :: ['a', 't', 'a', ':', 'i', 'm', 'a', 'g', 'e', '/'] from rfl]
    exact cistarts_head_ne (by decide) _ _
  have har : cistarts ((ipfsSchemeP ++ ipfsSlashP) ++ (c ++ p)) arP = false := by
    rw [hcons, show arP = 'a' :: ['r', ':', '/', '/'] from rfl]
    exact cistarts_head_ne (by decide) _ _
  have hstart : cistarts ((ipfsSchemeP ++ ipfsSlashP) ++ (c ++ p)) (ipfsSchemeP ++ ipfsSlashP)
      = true := cistarts_self_append _ _ hlow
  have htail : reTail (((ipfsSchemeP ++ ipfsSlashP) ++ (c ++ p)).drop 12) = true := by
    rw [h12]
    exact reTail_append hc hslash hLT
  unfold normalizeCore ipfsMatch
  rw [hhttp, hhttps, hdata, har, hstart, htail, h12]
  simp

lemma normalizeCore_form2 {c p : List Char}
    (hns : cistarts (c ++ p) ipfsSlashP = false) :
    normalizeCore (ipfsSchemeP ++ (c ++ p)) = ipfsSchemeP ++ (c ++ p) := by
  have hlow : ∀ x ∈ ipfsSchemeP, lowerChar x = x := by decide
  have hcons : ipfsSchemeP ++ (c ++ p)
      = 'i' :: (['p', 'f', 's', ':', '/', '/'] ++ (c ++ p)) := rfl
  have hhttp : cistarts (ipfsSchemeP ++ (c ++ p)) httpP = false := by
    rw [hcons, show httpP = 'h' :: ['t', 't', 'p', ':', '/', '/'] from rfl]
    exact cistarts_head_ne (by decide) _ _
  have hhttps : cistarts (ipfsSchemeP ++ (c ++ p)) httpsP = false := by
    rw [hcons, show httpsP = 'h' :: ['t', 't', 'p', 's', ':', '/', '/'] from rfl]
    exact cistarts_head_ne (by decide) _ _
  have hdata : cistarts (ipfsSchemeP ++ (c ++ p)) dataImgP = false := by
    rw [hcons, show dataImgP = 'd' :: ['a', 't', 'a', ':', 'i', 'm', 'a', 'g', 'e', '/'] from rfl]
    exact cistarts_head_ne (by decide) _ _
  have har : cistarts (ipfsSchemeP ++ (c ++ p)) arP = false := by
    rw [hcons, show arP = 'a' :: ['r', ':', '/', '/'] from rfl]
    exact cistarts_head_ne (by decide) _ _
  have hre1 : cistarts (ipfsSchemeP ++ (c ++ p)) (ipfsSchemeP ++ ipfsSlashP) = false := by
    rw [cistarts_append_cancel ipfsSchemeP (c ++ p) ipfsSlashP hlow]
    exact hns
  have hre3 : cistarts (ipfsSchemeP ++ (c ++ p)) slashIpfsP = false := by
    rw [hcons, show slashIpfsP = '/' :: ['i', 'p', 'f', 's', '/'] from rfl]
    exact cistarts_head_ne (by decide) _ _
  have hstart : cistarts (ipfsSchemeP ++ (c ++ p)) ipfsSchemeP = true :=
    cistarts_self_append _ _ hlow
  have h7 : (ipfsSchemeP ++ (c ++ p)).drop 7 = c ++ p := by
    have hl : (7 : Nat) = ipfsSchemeP.length := rfl
    rw [hl, List.drop_left]
  unfold normalizeCore ipfsMatch
  rw [hhttp, hhttps, hdata, har, hre1, hre3, hstart, h7]
  cases hrt : reTail (c ++ p) <;> simp [hrt]

lemma normalizeCore_form3 {c p : List Char} (hc : c ≠ []) (hslash : ∀ x ∈ c, x ≠ '/')
    (hLT : (c ++ p).all notLT = true) :
    normalizeCore (slashIpfsP ++ (c ++ p)) = ipfsSchemeP ++ (c ++ p) := by
  have hlow : ∀ x ∈ slashIpfsP, lowerChar x = x := by decide
  have hcons : slashIpfsP ++ (c ++ p)
      = '/' :: (['i', 'p', 'f', 's', '/'] ++ (c ++ p)) := rfl
  have hhttp : cistarts (slashIpfsP ++ (c ++ p)) httpP = false := by
    rw [hcons, show httpP = 'h' :: ['t', 't', 'p', ':', '/', '/'] from rfl]
    exact cistarts_head_ne (by decide) _ _
  have hhttps : cistarts (slashIpfsP ++ (c ++ p)) httpsP = false := by
    rw [hcons, show httpsP = 'h' :: ['t', 't', 'p', 's', ':', '/', '/'] from rfl]
    exact cistarts_head_ne (by decide) _ _
  have hdata : cistarts (slashIpfsP ++ (c ++ p)) dataImgP = false := by
    rw [hcons, show dataImgP = 'd' :: ['a', 't', 'a', ':', 'i', 'm', 'a', 'g', 'e', '/'] from rfl]
    exact cistarts_head_ne (by decide) _ _
  have har : cistarts (slashIpfsP ++ (c ++ p)) arP = false := by
    rw [hcons, show arP = 'a' :: ['r', ':', '/', '/'] from rfl]
    exact cistarts_head_ne (by decide) _ _
  have hre1 : cistarts (slashIpfsP ++ (c ++ p)) (ipfsSchemeP ++ ipfsSlashP) = false := by
    rw [hcons, show ipfsSchemeP ++ ipfsSlashP
      = 'i' :: (['p', 'f', 's', ':', '/', '/'] ++ ipfsSlashP) from rfl]
    exact cistarts_head_ne (by decide) _ _
  have hre2 : cistarts (slashIpfsP ++ (c ++ p)) ipfsSchemeP = false := by
    rw [hcons, show ipfsSchemeP = 'i' :: ['p', 'f', 's', ':', '/', '/'] from rfl]
    exact cistarts_head_ne (by decide) _ _
  have hstart : cistarts (slashIpfsP ++ (c ++ p)) slashIpfsP = true :=
    cistarts_self_append _ _ hlow
  have h6 : (slashIpfsP ++ (c ++ p)).drop 6 = c ++ p := by
    have hl : (6 : Nat) = slashIpfsP.length := rfl
    rw [hl, List.drop_left]
  have htail : reTail ((slashIpfsP ++ (c ++ p)).drop 6) = true := by
    rw [h6]
    exact reTail_append hc hslash hLT
  unfold normalizeCore ipfsMatch
  rw [hhttp, hhttps, hdata, har, hre1, hre2, hstart, htail, h6]
  simp


/-! ## Lemmas: display name and price -/

lemma assetNameV1_eq_amended (m : Meta) (an : Option String) :
    assetNameV1 m an = amendedNameChainV1 m an := by
  unfold assetNameV1 amendedNameChainV1
  cases m.name <;> cases m.Asset <;> cases an <;>
    simp [jsOrStr] <;> split_ifs <;> simp_all

lemma assetNameV3_eq_amended (m : Meta) (an : Option String) :
    assetNameV3 m an = amendedNameChainV3 m an := by
  unfold assetNameV3 amendedNameChainV3
  cases m.name <;> cases m.Asset <;> cases an <;>
    simp [jsOrStr] <;> split_ifs <;> simp_all

lemma toFixed2_close (n : Nat) :
    |((toFixed2Hundredths n : ℚ)) - (n : ℚ) / 10000| ≤ 1 / 2 := by
  unfold toFixed2Hundredths
  have h := Nat.div_add_mod (n + 5000) 10000
  have hm : (n + 5000) % 10000 < 10000 := Nat.mod_lt _ (by norm_num)
  have h' : (10000 : ℚ) * ((n + 5000) / 10000 : Nat) + ((n + 5000) % 10000 : Nat)
      = (n : ℚ) + 5000 := by exact_mod_cast h
  have hr0 : (0 : ℚ) ≤ ((n + 5000) % 10000 : Nat) := by exact_mod_cast Nat.zero_le _
  have hr1 : (((n + 5000) % 10000 : Nat) : ℚ) < 10000 := by exact_mod_cast hm
  have key : (((n + 5000) / 10000 : Nat) : ℚ) - (n : ℚ) / 10000
      = (5000 - (((n + 5000) % 10000 : Nat) : ℚ)) / 10000 := by
    field_simp
    linarith
  rw [key, abs_le]
  constructor
  · rw [le_div_iff₀ (by norm_num : (0 : ℚ) < 10000)]
    linarith
  · rw [div_le_iff₀ (by norm_num : (0 : ℚ) < 10000)]
    linarith


/-! ## Claim theorems -/

/-- Claim C1: for every transaction hash `h`, `h` is marked processed at
most once per monitoring pass, the processed set only grows (a hash is
never removed), a hash already in the set is never re-inspected (no
event of the cycle — UTXO fetch, notification or marking — concerns it
again), once `h` is marked in one pass a second pass emits no event for
`h` (in particular no notification), and the processed set stays
duplicate-free; all of this for both the variant-1 and the variant-3
monitoring cycles. -/
theorem C1_dedup_ledger (pids : List String) (env : String → TxEnv) (s : List String)
    (pass pass2 : List (String × List Tx)) (h : String) :
    countMark h (runPassV1 pids env s pass).2 ≤ 1
    ∧ (memb h s = true → memb h (runPassV1 pids env s pass).1 = true)
    ∧ (memb h s = true → ∀ e ∈ (runPassV1 pids env s pass).2, touches h e = false)
    ∧ (Ev.mark h ∈ (runPassV1 pids env s pass).2 →
        ∀ e ∈ (runPassV1 pids env (runPassV1 pids env s pass).1 pass2).2, touches h e = false)
    ∧ (s.Nodup → (runPassV1 pids env s pass).1.Nodup)
    ∧ countMark h (runPassV3 pids env s pass).2 ≤ 1
    ∧ (memb h s = true → memb h (runPassV3 pids env s pass).1 = true)
    ∧ (memb h s = true → ∀ e ∈ (runPassV3 pids env s pass).2, touches h e = false)
    ∧ (Ev.mark h ∈ (runPassV3 pids env s pass).2 →
        ∀ e ∈ (runPassV3 pids env (runPassV3 pids env s pass).1 pass2).2, touches h e = false)
    ∧ (s.Nodup → (runPassV3 pids env s pass).1.Nodup) := by
  have L1 : ∀ a, TxStepLaws (stepV1 pids a env) := fun a => txStepLawsV1 pids a env
  have L3 : ∀ a, TxStepLaws (stepV3 pids a env) := fun a => txStepLawsV3 pids a env
  simp only [runPassV1, runPassV3]
  refine ⟨?_, ?_, ?_, ?_, ?_, ?_, ?_, ?_, ?_, ?_⟩
  · exact runPass_countLe L1 s pass
  · exact fun hm => runPass_mono L1 s pass hm
  · exact fun hm => runPass_noTouch L1 s pass hm
  · exact fun hm => runPass_noTouch L1 _ pass2 (runPass_markMem L1 s pass hm)
  · exact fun hn => runPass_nodup L1 s pass hn
  · exact runPass_countLe L3 s pass
  · exact fun hm => runPass_mono L3 s pass hm
  · exact fun hm => runPass_noTouch L3 s pass hm
  · exact fun hm => runPass_noTouch L3 _ pass2 (runPass_markMem L3 s pass hm)
  · exact fun hn => runPass_nodup L3 s pass hn

/-- Witness for C1 at concrete inputs: a hash already in the ledger is
never touched again, and a hash marked in a first pass is touched by no
event of a second pass. -/
theorem C1_dedup_ledger_witness :
    (memb "aa" (["aa"] : List String) = true
      ∧ ∀ e ∈ (runPassV1 [policyW] envDeposit ["aa"] [("addr1", [txW])]).2, touches "aa" e = false)
    ∧ (Ev.mark "aa" ∈ (runPassV1 [policyW] envDeposit [] [("addr1", [txW])]).2
      ∧ ∀ e ∈ (runPassV1 [policyW] envDeposit
            (runPassV1 [policyW] envDeposit [] [("addr1", [txW])]).1 [("addr1", [txW])]).2,
          touches "aa" e = false) :=
  ⟨⟨by decide,
    (C1_dedup_ledger [policyW] envDeposit ["aa"] [("addr1", [txW])] [] "aa").2.2.1 (by decide)⟩,
   ⟨by decide,
    (C1_dedup_ledger [policyW] envDeposit [] [("addr1", [txW])]
      [("addr1", [txW])] "aa").2.2.2.1 (by decide)⟩⟩

/-- Claim C2 counterexample: a transaction whose UTXO fetch fails is NOT
added to the dedup ledger.  In a cycle over one in-epoch transaction
`txW` whose UTXO fetch fails, the cycle ends with the hash absent from
the ledger and only the failed fetch in the trace — contradicting the
claim that the hash is unconditionally added on every terminal outcome
including a failed UTXO fetch. -/
theorem C2_counterexample :
    memb "aa" (runPassV1 [policyW] envUtxoFail [] [("addr1", [txW])]).1 = false
    ∧ (runPassV1 [policyW] envUtxoFail [] [("addr1", [txW])]).2 = [Ev.utxoFetch "aa"] := by
  exact ⟨by decide, by decide⟩

/-- Claim C2, amended: a transaction not yet processed and passing the
summary epoch gate is marked processed exactly when its UTXO fetch
succeeds and the final epoch gate passes; a failed UTXO fetch (or a
below-573 final epoch) leaves the ledger unchanged, so the transaction
is NOT marked processed. -/
theorem C2_amended_mark_iff_fetch (pids : List String) (addr : String) (env : String → TxEnv)
    (s : List String) (tx : Tx)
    (hm : memb tx.tx_hash s = false)
    (he : jsLtNaN (getEpoch tx.block_time) 573 = false) :
    ((env tx.tx_hash).utxo = none → stepV1 pids addr env s tx = (s, [Ev.utxoFetch tx.tx_hash]))
    ∧ (∀ u, (env tx.tx_hash).utxo = some u →
        jsLtNaN (getEpoch (jsOrTime u.block_time (env tx.tx_hash).txLookup)) 573 = false →
        memb tx.tx_hash (stepV1 pids addr env s tx).1 = true
          ∧ Ev.mark tx.tx_hash ∈ (stepV1 pids addr env s tx).2)
    ∧ (∀ u, (env tx.tx_hash).utxo = some u →
        jsLtNaN (getEpoch (jsOrTime u.block_time (env tx.tx_hash).txLookup)) 573 = true →
        stepV1 pids addr env s tx = (s, [Ev.utxoFetch tx.tx_hash])) := by
  have hgate : (memb tx.tx_hash s || jsLtNaN (getEpoch tx.block_time) 573) = false := by
    rw [hm, he]
    rfl
  refine ⟨fun hu => stepV1_fail hgate hu, fun u hu hlt => ?_,
    fun u hu hlt => stepV1_late hgate hu hlt⟩
  rw [stepV1_go hgate hu hlt]
  constructor
  · rw [detect_state]
    exact memb_addProcessed_self _ _
  · exact mem_detect_events.mpr (Or.inr (Or.inr rfl))

/-- Witness for the amended C2: a failed UTXO fetch on an unprocessed
in-epoch transaction yields exactly the failed fetch and no mark. -/
theorem C2_amended_witness :
    (memb "aa" ([] : List String) = false
      ∧ jsLtNaN (getEpoch txW.block_time) 573 = false
      ∧ (envUtxoFail "aa").utxo = none)
    ∧ stepV1 [policyW] "addr1" envUtxoFail [] txW = ([], [Ev.utxoFetch "aa"]) :=
  ⟨⟨by decide, by decide, rfl⟩,
   (C2_amended_mark_iff_fetch [policyW] "addr1" envUtxoFail [] txW
      (by decide) (by decide)).1 rfl⟩

/-- Claim C3 counterexample: the variant-1 resolver does not degrade to
ONE single fixed placeholder URL — a metadata map with no image fields
yields the No+Image placeholder while a map whose `image` field holds
the number 42 yields the distinct Invalid+Image placeholder, and no
verification is performed on either path. -/
theorem C3_counterexample :
    imageUrlV1 metaEmptyC3 = "https://via.placeholder.com/150?text=No+Image"
    ∧ imageUrlV1 metaNumImg = "https://via.placeholder.com/150?text=Invalid+Image"
    ∧ imageUrlV1 metaEmptyC3 ≠ imageUrlV1 metaNumImg := by
  exact ⟨by decide, by decide, by decide⟩

/-- Claim C3, amended: the resolver is total and always returns a
non-empty URL string; every metadata map lacking all recognized image
fields (image, image_url, thumbnail, media, files) yields the fixed
No-Image placeholder of its variant (variant 1 selects no raw image,
variant 3 extracts no raw image); but variant 1 has three distinct
placeholder URLs over its failure modes and verifies nothing. -/
theorem C3_amended (m : Meta) :
    (lacksAllImageFields m →
      rawImageV1 m = none ∧ extractRawImage m = none
      ∧ imageUrlV1 m = noImg150 ∧ imageUrlV3 m = ph600)
    ∧ imageUrlV1 m ≠ "" ∧ imageUrlV3 m ≠ "" := by
  refine ⟨?_, ?_, ?_⟩
  · rintro ⟨h1, h2, h3, h4, h5⟩
    rw [Option.isNone_iff_eq_none] at h1 h2 h3 h4 h5
    have hraw : rawImageV1 m = none := by
      simp [rawImageV1, imgCandA, imgCandB, filesFindSrc, filesFindUrl, firstTruthy, h1, h4, h5]
    have hex : extractRawImage m = none := by
      simp [extractRawImage, candidatesV3, candFlat, filesFindSrc, filesFindUrl,
        h1, h2, h3, h4, h5]
    refine ⟨hraw, hex, ?_, ?_⟩
    · show (if ipfsToHttp (rawImageV1 m) = "" then ph600 else ipfsToHttp (rawImageV1 m)) = noImg150
      rw [hraw]
      rfl
    · simp [imageUrlV3, hex, buildPoolPreviewUrl, normalizeToCanonicalUrl]
  · show (if ipfsToHttp (rawImageV1 m) = "" then ph600 else ipfsToHttp (rawImageV1 m)) ≠ ""
    split
    · decide
    · next hne => exact hne
  · unfold imageUrlV3
    split
    · split
      · decide
      · next hne => exact hne
    · decide

/-- Witness for the amended C3: the empty metadata map lacks all image
fields and resolves to the No-Image placeholders in both variants. -/
theorem C3_amended_witness :
    lacksAllImageFields metaEmptyC3
    ∧ (rawImageV1 metaEmptyC3 = none ∧ extractRawImage metaEmptyC3 = none
      ∧ imageUrlV1 metaEmptyC3 = noImg150 ∧ imageUrlV3 metaEmptyC3 = ph600) :=
  ⟨⟨rfl, rfl, rfl, rfl, rfl⟩, (C3_amended metaEmptyC3).1 ⟨rfl, rfl, rfl, rfl, rfl⟩⟩

/-- Claim C4 counterexample: normalization is NOT indifferent to the
input form for the CID `ipfs`.  With CID `ipfs` and path `/img.png`,
the first form `ipfs://ipfs/` ++ cid ++ path and the third form
`/ipfs/` ++ cid ++ path normalize to `ipfs://ipfs/img.png`, but the
second form `ipfs://` ++ cid ++ path — the string
`ipfs://ipfs/img.png` — is captured by the first regex and normalizes
to `ipfs://img.png` instead, so the three forms do not agree. -/
theorem C4_counterexample :
    normalizeToCanonicalUrl (some "ipfs://ipfs/ipfs/img.png") = some "ipfs://ipfs/img.png"
    ∧ normalizeToCanonicalUrl (some "ipfs://ipfs/img.png") = some "ipfs://img.png"
    ∧ normalizeToCanonicalUrl (some "/ipfs/ipfs/img.png") = some "ipfs://ipfs/img.png"
    ∧ (some ("ipfs://img.png" : String) ≠ some ("ipfs://ipfs/img.png" : String)) := by
  exact ⟨by decide, by decide, by decide, by decide⟩

/-- Claim C4, amended: for every CID `c` (non-empty, containing no `/`)
and path `p`, PROVIDED `c ++ p` contains no line-terminator character
and does not itself start (case-insensitively) with the segment
`ipfs/`, the three distributed-storage forms `ipfs://ipfs/<c><p>`,
`ipfs://<c><p>` and `/ipfs/<c><p>` all normalize to the same canonical
`ipfs://<c><p>`. -/
theorem C4_amended (c p : List Char) (h1 : c ≠ []) (h2 : ∀ x ∈ c, x ≠ '/')
    (h3 : (c ++ p).all notLT = true) (h4 : cistarts (c ++ p) ipfsSlashP = false) :
    normalizeToCanonicalUrl (some (String.mk ((ipfsSchemeP ++ ipfsSlashP) ++ (c ++ p))))
      = some (String.mk (ipfsSchemeP ++ (c ++ p)))
    ∧ normalizeToCanonicalUrl (some (String.mk (ipfsSchemeP ++ (c ++ p))))
      = some (String.mk (ipfsSchemeP ++ (c ++ p)))
    ∧ normalizeToCanonicalUrl (some (String.mk (slashIpfsP ++ (c ++ p))))
      = some (String.mk (ipfsSchemeP ++ (c ++ p))) := by
  refine ⟨?_, ?_, ?_⟩
  · show some (String.mk (normalizeCore ((ipfsSchemeP ++ ipfsSlashP) ++ (c ++ p))))
      = some (String.mk (ipfsSchemeP ++ (c ++ p)))
    rw [normalizeCore_form1 h1 h2 h3]
  · show some (String.mk (normalizeCore (ipfsSchemeP ++ (c ++ p))))
      = some (String.mk (ipfsSchemeP ++ (c ++ p)))
    rw [normalizeCore_form2 h4]
  · show some (String.mk (normalizeCore (slashIpfsP ++ (c ++ p))))
      = some (String.mk (ipfsSchemeP ++ (c ++ p)))
    rw [normalizeCore_form3 h1 h2 h3]

/-- Witness for the amended C4: CID `Qm123` with path `/img.png`
normalizes identically from all three forms. -/
theorem C4_amended_witness :
    ((['Q', 'm', '1', '2', '3'] : List Char) ≠ []
      ∧ (∀ x ∈ (['Q', 'm', '1', '2', '3'] : List Char), x ≠ '/')
      ∧ ((['Q', 'm', '1', '2', '3'] ++ ['/', 'i', 'm', 'g', '.', 'p', 'n', 'g']).all notLT = true)
      ∧ cistarts (['Q', 'm', '1', '2', '3'] ++ ['/', 'i', 'm', 'g', '.', 'p', 'n', 'g'])
          ipfsSlashP = false)
    ∧ (normalizeToCanonicalUrl (some (String.mk ((ipfsSchemeP ++ ipfsSlashP)
          ++ (['Q', 'm', '1', '2', '3'] ++ ['/', 'i', 'm', 'g', '.', 'p', 'n', 'g']))))
        = some (String.mk (ipfsSchemeP
          ++ (['Q', 'm', '1', '2', '3'] ++ ['/', 'i', 'm', 'g', '.', 'p', 'n', 'g'])))
      ∧ normalizeToCanonicalUrl (some (String.mk (ipfsSchemeP
          ++ (['Q', 'm', '1', '2', '3'] ++ ['/', 'i', 'm', 'g', '.', 'p', 'n', 'g']))))
        = some (String.mk (ipfsSchemeP
          ++ (['Q', 'm', '1', '2', '3'] ++ ['/', 'i', 'm', 'g', '.', 'p', 'n', 'g'])))
      ∧ normalizeToCanonicalUrl (some (String.mk (slashIpfsP
          ++ (['Q', 'm', '1', '2', '3'] ++ ['/', 'i', 'm', 'g', '.', 'p', 'n', 'g']))))
        = some (String.mk (ipfsSchemeP
          ++ (['Q', 'm', '1', '2', '3'] ++ ['/', 'i', 'm', 'g', '.', 'p', 'n', 'g'])))) :=
  ⟨⟨by decide, by decide, by decide, by decide⟩,
   C4_amended ['Q', 'm', '1', '2', '3'] ['/', 'i', 'm', 'g', '.', 'p', 'n', 'g']
     (by decide) (by decide) (by decide) (by decide)⟩


/-! ## Further scanner branch equations (used by C5 and C6) -/

lemma scanGo_short {page : Nat} {short : List Tx} {rest : List PageResp}
    (hp : page ≤ 5) (hs : short.length < 100) :
    scanGo page (PageResp.ok short :: rest) = (short, [ScanEv.req page TX_FETCH_LIMIT true]) := by
  have hx : ¬ MAX_PAGES < page := by unfold MAX_PAGES; omega
  have hy : short.length < TX_FETCH_LIMIT := hs
  simp only [scanGo]
  rw [if_neg hx, if_pos hy]

lemma scanGo_429 {page : Nat} {rest : List PageResp} (hp : page ≤ 5) :
    scanGo page (PageResp.httpErr 429 :: rest)
      = ((scanGo page rest).1,
         ScanEv.req page TX_FETCH_LIMIT true :: ScanEv.sleepMs 10000 :: (scanGo page rest).2) := by
  have hx : ¬ MAX_PAGES < page := by unfold MAX_PAGES; omega
  simp only [scanGo]
  rw [if_neg hx]
  simp

lemma scanGo_errStop {page status : Nat} {rest : List PageResp}
    (hp : page ≤ 5) (hs : status ≠ 429) :
    scanGo page (PageResp.httpErr status :: rest) = ([], [ScanEv.req page TX_FETCH_LIMIT true]) := by
  have hx : ¬ MAX_PAGES < page := by unfold MAX_PAGES; omega
  simp only [scanGo]
  rw [if_neg hx, if_neg hs]

lemma scanGo_netStop {page : Nat} {rest : List PageResp} (hp : page ≤ 5) :
    scanGo page (PageResp.netErr :: rest) = ([], [ScanEv.req page TX_FETCH_LIMIT true]) := by
  have hx : ¬ MAX_PAGES < page := by unfold MAX_PAGES; omega
  simp only [scanGo]
  rw [if_neg hx]

lemma scanGo_six (rest : List PageResp) : scanGo 6 rest = ([], []) := by
  cases rest with
  | nil => rfl
  | cons r rs => simp [scanGo, MAX_PAGES]

/-- Claim C5: the per-address pagination requests pages of fixed size
100 in descending (newest-first) order starting at page 1; with `k-1`
full pages followed by a short page (`k ≤ 5`) it requests exactly pages
1..k and accumulates exactly those pages; with 5 full pages it stops
after page 5 regardless of further history; whenever the server returns
at most 100 records per page, at most 500 transactions are accumulated
per address per cycle; and every request carries `count = 100`,
descending order and a page number between 1 and 5. -/
theorem C5_scanner_pagination :
    (∀ (fulls : List (List Tx)) (short : List Tx) (rest : List PageResp),
      (∀ l ∈ fulls, l.length = 100) → short.length < 100 → fulls.length + 1 ≤ 5 →
      scanGo 1 (fulls.map PageResp.ok ++ PageResp.ok short :: rest)
        = (fulls.flatten ++ short,
           pageEvts 1 fulls.length ++ [ScanEv.req (fulls.length + 1) TX_FETCH_LIMIT true]))
    ∧ (∀ (fulls : List (List Tx)) (rest : List PageResp),
        (∀ l ∈ fulls, l.length = 100) → fulls.length = 5 →
        scanGo 1 (fulls.map PageResp.ok ++ rest) = (fulls.flatten, pageEvts 1 5))
    ∧ (∀ rs : List PageResp, (∀ txs, PageResp.ok txs ∈ rs → txs.length ≤ 100) →
        (scanGo 1 rs).1.length ≤ 500)
    ∧ (∀ rs : List PageResp, ∀ e ∈ (scanGo 1 rs).2, ∀ pg ct d, e = ScanEv.req pg ct d →
        ct = 100 ∧ d = true ∧ 1 ≤ pg ∧ pg ≤ 5) := by
  refine ⟨?_, ?_, ?_, ?_⟩
  · intro fulls short rest hall hshort hle
    have hcomm : 1 + fulls.length = fulls.length + 1 := Nat.add_comm _ _
    rw [scanGo_fulls fulls 1 (PageResp.ok short :: rest) hall (le_refl 1) (by omega), hcomm,
      scanGo_short hle hshort]
  · intro fulls rest hall h5
    have h6 : (1 : Nat) + 5 = 6 := rfl
    rw [scanGo_fulls fulls 1 rest hall (le_refl 1) (by omega), h5, h6, scanGo_six]
    simp
  · intro rs hok
    have h := scanGo_bound rs 1 hok
    norm_num at h
    exact h
  · intro rs e he pg ct d hform
    exact scanGo_req_bounds rs 1 e he pg ct d hform

/-- Witness for C5: one full page followed by an empty page stops after
requesting pages 1 and 2 and accumulates exactly the full page. -/
theorem C5_scanner_pagination_witness :
    ((∀ l ∈ [fullPage], l.length = 100) ∧ ([] : List Tx).length < 100
      ∧ ([fullPage] : List (List Tx)).length + 1 ≤ 5)
    ∧ scanGo 1 ([fullPage].map PageResp.ok ++ PageResp.ok [] :: [])
        = ([fullPage].flatten ++ [],
           pageEvts 1 [fullPage].length
             ++ [ScanEv.req ([fullPage].length + 1) TX_FETCH_LIMIT true]) :=
  ⟨⟨by decide, by decide, by decide⟩,
   C5_scanner_pagination.1 [fullPage] [] [] (by decide) (by decide) (by decide)⟩

/-- Claim C6: an HTTP 429 on the next page after `k-1` full pages makes
the scanner sleep the fixed 10 s and re-request the SAME page number
(the continuation is the scan restarted at that same page), keeping
every previously fetched page; any non-429 HTTP error or network error
instead ends pagination for the address, still keeping the previously
fetched pages; and a 429 followed by a successful short page yields
exactly the retried request and the page's transactions without loss. -/
theorem C6_rate_limit_retry :
    (∀ (fulls : List (List Tx)) (rest : List PageResp),
      (∀ l ∈ fulls, l.length = 100) → fulls.length + 1 ≤ 5 →
      scanGo 1 (fulls.map PageResp.ok ++ PageResp.httpErr 429 :: rest)
        = (fulls.flatten ++ (scanGo (fulls.length + 1) rest).1,
           pageEvts 1 fulls.length
             ++ ScanEv.req (fulls.length + 1) TX_FETCH_LIMIT true
             :: ScanEv.sleepMs 10000 :: (scanGo (fulls.length + 1) rest).2))
    ∧ (∀ (fulls : List (List Tx)) (status : Nat) (rest : List PageResp),
        (∀ l ∈ fulls, l.length = 100) → fulls.length + 1 ≤ 5 → status ≠ 429 →
        scanGo 1 (fulls.map PageResp.ok ++ PageResp.httpErr status :: rest)
          = (fulls.flatten,
             pageEvts 1 fulls.length ++ [ScanEv.req (fulls.length + 1) TX_FETCH_LIMIT true]))
    ∧ (∀ (fulls : List (List Tx)) (rest : List PageResp),
        (∀ l ∈ fulls, l.length = 100) → fulls.length + 1 ≤ 5 →
        scanGo 1 (fulls.map PageResp.ok ++ PageResp.netErr :: rest)
          = (fulls.flatten,
             pageEvts 1 fulls.length ++ [ScanEv.req (fulls.length + 1) TX_FETCH_LIMIT true]))
    ∧ (∀ (fulls : List (List Tx)) (short : List Tx) (rest : List PageResp),
        (∀ l ∈ fulls, l.length = 100) → short.length < 100 → fulls.length + 1 ≤ 5 →
        scanGo 1 (fulls.map PageResp.ok ++ PageResp.httpErr 429 :: PageResp.ok short :: rest)
          = (fulls.flatten ++ short,
             pageEvts 1 fulls.length
               ++ [ScanEv.req (fulls.length + 1) TX_FETCH_LIMIT true, ScanEv.sleepMs 10000,
                   ScanEv.req (fulls.length + 1) TX_FETCH_LIMIT true])) := by
  refine ⟨?_, ?_, ?_, ?_⟩
  · intro fulls rest hall hle
    have hcomm : 1 + fulls.length = fulls.length + 1 := Nat.add_comm _ _
    rw [scanGo_fulls fulls 1 (PageResp.httpErr 429 :: rest) hall (le_refl 1) (by omega), hcomm,
      scanGo_429 hle]
  · intro fulls status rest hall hle hst
    have hcomm : 1 + fulls.length = fulls.length + 1 := Nat.add_comm _ _
    rw [scanGo_fulls fulls 1 (PageResp.httpErr status :: rest) hall (le_refl 1) (by omega),
      hcomm, scanGo_errStop hle hst]
    simp
  · intro fulls rest hall hle
    have hcomm : 1 + fulls.length = fulls.length + 1 := Nat.add_comm _ _
    rw [scanGo_fulls fulls 1 (PageResp.netErr :: rest) hall (le_refl 1) (by omega), hcomm,
      scanGo_netStop hle]
    simp
  · intro fulls short rest hall hshort hle
    have hcomm : 1 + fulls.length = fulls.length + 1 := Nat.add_comm _ _
    rw [scanGo_fulls fulls 1 (PageResp.httpErr 429 :: PageResp.ok short :: rest) hall
      (le_refl 1) (by omega), hcomm, scanGo_429 hle, scanGo_short hle hshort]

/-- Witness for C6: a 429 on page 1 followed by a successful empty page
produces request page 1, the 10 s sleep, and the retried request of
page 1 again, with no transactions lost. -/
theorem C6_rate_limit_retry_witness :
    ((∀ l ∈ ([] : List (List Tx)), l.length = 100) ∧ ([] : List Tx).length < 100
      ∧ ([] : List (List Tx)).length + 1 ≤ 5)
    ∧ scanGo 1 (([] : List (List Tx)).map PageResp.ok
          ++ PageResp.httpErr 429 :: PageResp.ok [] :: [])
        = (([] : List (List Tx)).flatten ++ [],
           pageEvts 1 ([] : List (List Tx)).length
             ++ [ScanEv.req (([] : List (List Tx)).length + 1) TX_FETCH_LIMIT true,
                 ScanEv.sleepMs 10000,
                 ScanEv.req (([] : List (List Tx)).length + 1) TX_FETCH_LIMIT true]) :=
  ⟨⟨by decide, by decide, by decide⟩,
   C6_rate_limit_retry.2.2.2 [] [] [] (by decide) (by decide) (by decide)⟩

/-- Claim C7: the detector yields exactly the asset units occurring in
an output addressed to the scanned watched address, other than
`lovelace`, whose 56-character policy prefix is watched; and in a whole
monitoring pass (either variant) every notification is for a unit whose
56-character prefix is in the watched policy set. -/
theorem C7_detector (pids : List String) (addr : String) (outs : List TxOut) (u : String)
    (env : String → TxEnv) (s : List String) (pass : List (String × List Tx)) (h0 : String) :
    (u ∈ matchingUnits pids addr outs ↔
      ∃ o ∈ outs, o.address = addr ∧ (∃ a ∈ o.amount, a.unit = u) ∧ u ≠ "lovelace"
        ∧ memb (takeChars 56 u) pids = true)
    ∧ (Ev.notify h0 u ∈ (runPassV1 pids env s pass).2 → memb (takeChars 56 u) pids = true)
    ∧ (Ev.notify h0 u ∈ (runPassV3 pids env s pass).2 → memb (takeChars 56 u) pids = true) := by
  refine ⟨mem_matchingUnits, ?_, ?_⟩
  · intro hmem
    simp only [runPassV1] at hmem
    exact runPass_pres
      (P := fun e => ∀ h1 u1, e = Ev.notify h1 u1 → memb (takeChars 56 u1) pids = true)
      (fun a s1 tx e he => stepV1_notify_watched pids a env s1 tx e he)
      s pass _ hmem h0 u rfl
  · intro hmem
    simp only [runPassV3] at hmem
    exact runPass_pres
      (P := fun e => ∀ h1 u1, e = Ev.notify h1 u1 → memb (takeChars 56 u1) pids = true)
      (fun a s1 tx e he => stepV3_notify_watched pids a env s1 tx e he)
      s pass _ hmem h0 u rfl

/-- Witness for C7: the notification emitted for the watched deposit
`unitW` indeed carries a watched 56-character policy prefix. -/
theorem C7_detector_witness :
    Ev.notify "aa" unitW ∈ (runPassV1 [policyW] envDeposit [] [("addr1", [txW])]).2
    ∧ memb (takeChars 56 unitW) [policyW] = true :=
  ⟨by decide,
   (C7_detector [policyW] "addr1" [] unitW envDeposit [] [("addr1", [txW])] "aa").2.1
     (by decide)⟩

/-- Claim C8 counterexample: the displayed name is NOT the first
DEFINED value of the fallback chain.  For a metadata map whose `name`
is present but empty and whose `Asset` is `"Foo"`, the code displays
`"Foo"` while the first defined value is the empty `name`. -/
theorem C8_counterexample :
    assetNameV1 metaC8 none = "Foo"
    ∧ claimNameFirstDefined metaC8 none = ""
    ∧ assetNameV1 metaC8 none ≠ claimNameFirstDefined metaC8 none := by
  exact ⟨by decide, by decide, by decide⟩

/-- Claim C8, amended: the displayed name is the first NON-EMPTY
(JavaScript-truthy) value of the chain metadata `name` → metadata
`Asset` → hex-decoded asset-name bytes → `"Unknown"`; in variant 1 an
empty hex-decode falls through to `"Unknown"`, while in variants 2/3 a
non-empty raw asset name selects the decode even if it decodes to the
empty string. -/
theorem C8_name_fallback_amended (m : Meta) (an : Option String) :
    assetNameV1 m an = amendedNameChainV1 m an
    ∧ assetNameV3 m an = amendedNameChainV3 m an :=
  ⟨assetNameV1_eq_amended m an, assetNameV3_eq_amended m an⟩

/-- Claim C9 counterexample: a present price of `0` lovelace is
displayed as `"N/A"`, not as the 2-decimal amount `"0.00 ADA"` the
claim requires for every present price. -/
theorem C9_counterexample :
    priceDisplay (some 0) = "N/A"
    ∧ claimPriceDisplay (some 0) = "0.00 ADA"
    ∧ priceDisplay (some 0) ≠ claimPriceDisplay (some 0) := by
  exact ⟨by decide, by decide, by decide⟩

/-- Claim C9, amended: an absent price and a present price of `0`
(falsy) both display `"N/A"`; every non-zero price `n` displays a
2-decimal string `w.dd ADA` whose value in hundredths of ADA is within
half a hundredth of `n / 10^6` ADA. -/
theorem C9_price_amended (n : Nat) (hn : n ≠ 0) :
    priceDisplay none = "N/A"
    ∧ priceDisplay (some 0) = "N/A"
    ∧ priceDisplay (some n) = fmtHundredths (toFixed2Hundredths n) ++ " ADA"
    ∧ fmtHundredths (toFixed2Hundredths n)
        = toString (toFixed2Hundredths n / 100) ++ "."
          ++ String.mk [Nat.digitChar (toFixed2Hundredths n / 10 % 10),
              Nat.digitChar (toFixed2Hundredths n % 10)]
    ∧ (String.mk [Nat.digitChar (toFixed2Hundredths n / 10 % 10),
        Nat.digitChar (toFixed2Hundredths n % 10)]).length = 2
    ∧ |((toFixed2Hundredths n : ℚ)) - (n : ℚ) / 10000| ≤ 1 / 2 := by
  refine ⟨rfl, rfl, ?_, rfl, rfl, toFixed2_close n⟩
  simp [priceDisplay, hn]

/-- Witness for the amended C9: the spec's example price of 50 000 000
lovelace displays as `50.00 ADA`. -/
theorem C9_price_amended_witness :
    ((50000000 : Nat) ≠ 0)
    ∧ priceDisplay (some 50000000) = fmtHundredths (toFixed2Hundredths 50000000) ++ " ADA"
    ∧ priceDisplay (some 50000000) = "50.00 ADA" :=
  ⟨by decide, ((C9_price_amended 50000000 (by decide)).2.2).1, by decide⟩

/-- Claim C10: in the variant-1 cycle, a transaction whose summary
record has no block time gets epoch `NaN`, the comparison
`epoch < 573` is false, and the transaction is not skipped by the
epoch filter: its UTXO fetch is performed, and when the fetch succeeds
and the final epoch gate passes it proceeds to detection. -/
theorem C10_null_blocktime (pids : List String) (addr : String) (env : String → TxEnv)
    (s : List String) (tx : Tx) (hb : tx.block_time = none) (hm : memb tx.tx_hash s = false) :
    getEpoch tx.block_time = none
    ∧ jsLtNaN (getEpoch tx.block_time) 573 = false
    ∧ Ev.utxoFetch tx.tx_hash ∈ (stepV1 pids addr env s tx).2
    ∧ (∀ u, (env tx.tx_hash).utxo = some u →
        jsLtNaN (getEpoch (jsOrTime u.block_time (env tx.tx_hash).txLookup)) 573 = false →
        stepV1 pids addr env s tx = detectAndNotify pids addr env s tx.tx_hash u) := by
  have hgate : (memb tx.tx_hash s || jsLtNaN (getEpoch tx.block_time) 573) = false := by
    rw [hm, hb]
    rfl
  refine ⟨by rw [hb]; rfl, by rw [hb]; rfl, ?_, fun u hu hlt => stepV1_go hgate hu hlt⟩
  cases hu : (env tx.tx_hash).utxo with
  | none =>
    rw [stepV1_fail hgate hu]
    simp
  | some u =>
    cases hlt : jsLtNaN (getEpoch (jsOrTime u.block_time (env tx.tx_hash).txLookup)) 573 with
    | true =>
      rw [stepV1_late hgate hu hlt]
      simp
    | false =>
      rw [stepV1_go hgate hu hlt]
      exact mem_detect_events.mpr (Or.inl rfl)

/-- Witness for C10: a transaction without block time is not epoch-
filtered and its UTXO fetch is attempted. -/
theorem C10_null_blocktime_witness :
    ((⟨"cc", none⟩ : Tx).block_time = none ∧ memb "cc" ([] : List String) = false)
    ∧ (getEpoch none = none
      ∧ jsLtNaN (getEpoch none) 573 = false
      ∧ Ev.utxoFetch "cc" ∈ (stepV1 [] "x" envUtxoFail [] ⟨"cc", none⟩).2
      ∧ (∀ u, (envUtxoFail "cc").utxo = some u →
          jsLtNaN (getEpoch (jsOrTime u.block_time (envUtxoFail "cc").txLookup)) 573 = false →
          stepV1 [] "x" envUtxoFail [] ⟨"cc", none⟩
            = detectAndNotify [] "x" envUtxoFail [] "cc" u)) :=
  ⟨⟨rfl, by decide⟩, C10_null_blocktime [] "x" envUtxoFail [] ⟨"cc", none⟩ rfl (by decide)⟩

end ListingBot
